import Mathlib

/-!
Verification of the Dynamic API Registry and Tool Router of the
multi-API Swagger MCP server (source: src/index.ts and src/config.ts,
plus the earlier revisions of the same router kept in the repository).

The embedding is shallow: the TypeScript functions are translated into
executable Lean definitions.  JavaScript strings are modelled as Lean
strings (the relevant operations are ASCII); JavaScript objects holding
string-valued fields are modelled as association lists in insertion
order (a JS `Map` and plain objects both preserve insertion order, and
keyed assignment is modelled by `setAssoc`).  Caller input records are
modelled as association lists of string fields, matching the string
typing that `createInputSchema` imposes on every declared parameter.
The HTTP layer itself is external: `executeApiCall` is modelled up to
the fully constructed outbound request (method, URL, headers, query
parameters, body), which is everything the axios call receives, and the
specification-fetch collaborator (`SwaggerParser.parse`) is modelled as
an oracle `String → Option SpecDoc` together with a trace of the URLs
that were requested.
-/

set_option synthInstance.maxSize 512

namespace SwaggerMcp

/-! ## Basic character and string primitives -/

/-- Left curly brace character (written via its code point throughout). -/
def lbrace : Char := Char.ofNat 123

/-- Right curly brace character. -/
def rbrace : Char := Char.ofNat 125

/-- Splits a character list around the first occurrence of a pattern:
returns the part before the match and the part after it.  This models
the search performed by both JS `String.prototype.includes` and the
first-occurrence replacement of `String.prototype.replace` with a
string pattern. -/
def splitFirst : List Char → List Char → Option (List Char × List Char)
  | [], pat => if pat = [] then some ([], []) else none
  | c :: cs, pat =>
    if pat.isPrefixOf (c :: cs) then some ([], (c :: cs).drop pat.length)
    else (splitFirst cs pat).map (fun pr => (c :: pr.1, pr.2))

/-- JS `s.includes(pat)`. -/
def jsIncludes (s pat : String) : Bool := (splitFirst s.data pat.data).isSome

/-- JS `s.replace(pat, repl)` with a string pattern: replaces only the
first occurrence, or returns the string unchanged when there is none. -/
def jsReplaceFirst (s pat repl : String) : String :=
  match splitFirst s.data pat.data with
  | some pr => String.mk (pr.1 ++ repl.data ++ pr.2)
  | none => s

/-- JS `s.toLowerCase()` on the ASCII fragment used by the router. -/
def jsToLower (s : String) : String := String.mk (s.data.map Char.toLower)

/-- JS `s.toUpperCase()` on the ASCII fragment used by the router. -/
def jsToUpper (s : String) : String := String.mk (s.data.map Char.toUpper)

/-- Characters that `encodeURIComponent` leaves unescaped. -/
def uriUnreserved (c : Char) : Bool :=
  c.isAlphanum || c = '-' || c = '_' || c = '.' || c = '!' || c = '~' ||
  c = '*' || c = Char.ofNat 39 || c = '(' || c = ')'

/-- Uppercase hexadecimal digits, as produced by `encodeURIComponent`. -/
def hexDigits : List Char := "0123456789ABCDEF".data

/-- Hexadecimal digit for a value below 16. -/
def hexDigitAt (n : Nat) : Char := hexDigits.getD n '0'

/-- UTF-8 bytes of a code point. -/
def utf8Bytes (n : Nat) : List Nat :=
  if n < 128 then [n]
  else if n < 2048 then [192 + n / 64, 128 + n % 64]
  else if n < 65536 then [224 + n / 4096, 128 + n / 64 % 64, 128 + n % 64]
  else [240 + n / 262144, 128 + n / 4096 % 64, 128 + n / 64 % 64, 128 + n % 64]

/-- Percent-encoding of one character, byte by byte. -/
def percentEncodeChar (c : Char) : List Char :=
  (utf8Bytes c.toNat).flatMap (fun b => ['%', hexDigitAt (b / 16), hexDigitAt (b % 16)])

/-- JS `encodeURIComponent`. -/
def encodeURIComponent (s : String) : String :=
  String.mk (s.data.flatMap (fun c => if uriUnreserved c then [c] else percentEncodeChar c))

/-- Base64 alphabet used by `btoa`. -/
def base64Alphabet : List Char :=
  "ABCDEFGHIJKLMNOPQRSTUVWXYZabcdefghijklmnopqrstuvwxyz0123456789+/".data

/-- Base64 digit for a value below 64. -/
def b64Char (n : Nat) : Char := base64Alphabet.getD n 'A'

/-- Standard base64 of a byte list, with padding. -/
def base64Encode : List Nat → List Char
  | [] => []
  | [a] => [b64Char (a / 4), b64Char (a % 4 * 16), '=', '=']
  | [a, b] => [b64Char (a / 4), b64Char (a % 4 * 16 + b / 16), b64Char (b % 16 * 4), '=']
  | a :: b :: c :: rest =>
    b64Char (a / 4) :: b64Char (a % 4 * 16 + b / 16) ::
      b64Char (b % 16 * 4 + c / 64) :: b64Char (c % 64) :: base64Encode rest

/-- JS `btoa` on the latin-1 strings the router feeds it. -/
def btoa (s : String) : String := String.mk (base64Encode (s.data.map Char.toNat))

/-- JS truthiness of an optional string field: present and non-empty. -/
def truthy : Option String → Bool
  | none => false
  | some s => !(s == "")

/-- Keyed assignment on an association list, modelling `obj[k] = v` (and
`Map.set`): overwrite in place when the key exists, append otherwise. -/
def setAssoc {α : Type} : List (String × α) → String → α → List (String × α)
  | [], k, v => [(k, v)]
  | (k', v') :: rest, k, v =>
    if k' = k then (k, v) :: rest else (k', v') :: setAssoc rest k v

/-! ## Configuration data model (src/config.ts) -/

/-- Values of the zod `type` enum of `AuthConfigSchema`. -/
inductive AuthType
  | basic
  | bearer
  | apiKey
  | oauth2
deriving DecidableEq

/-- Values of the zod `apiKeyIn` enum. -/
inductive ApiKeyLoc
  | header
  | query
deriving DecidableEq

/-- An authentication configuration object.  The `type` field is
optional so that the spread of a missing `config.auth` (which yields the
empty object in `callEndpoint`) is representable; every shipped config
populates it. -/
structure AuthConfig where
  type : Option AuthType := none
  token : Option String := none
  username : Option String := none
  password : Option String := none
  apiKey : Option String := none
  apiKeyName : Option String := none
  apiKeyIn : Option ApiKeyLoc := none
deriving DecidableEq

/-- One entry of the `apis` array (zod `ApiConfigSchema`). -/
structure ApiConfig where
  name : String
  title : String
  swaggerUrl : String
  baseUrl : String
  auth : Option AuthConfig := none
  enabled : Bool := true
  maxTools : Nat := 10
deriving DecidableEq

/-- Bearer auth object with an empty default token, as written in every
shipped configuration entry (`auth: { type: 'bearer', token: '' }`). -/
def emptyBearerAuth : AuthConfig := { type := some AuthType.bearer, token := some "" }

/-- The `apis` array of `defaultConfig` in src/config.ts. -/
def defaultConfigApis : List ApiConfig :=
  [ { name := "device_mgr_enterprise", title := "IoT Device Manager (Enterprise)",
      swaggerUrl := "https://iot-api.acceleronix.io/v2/devicemgr/v2/api-docs?group=device-mgr-enterpriseapi",
      baseUrl := "https://iot-api.acceleronix.io/v2/devicemgr",
      auth := some emptyBearerAuth, enabled := true, maxTools := 8 },
    { name := "binding_enduser", title := "Binding Service (EndUser)",
      swaggerUrl := "https://iot-api.acceleronix.io/v2/binding/v2/api-docs?group=BindingServiceEnduserAPI",
      baseUrl := "https://iot-api.acceleronix.io/v2/binding",
      auth := some emptyBearerAuth, enabled := true, maxTools := 6 },
    { name := "deviceshadow_enterprise", title := "Device Shadow (Enterprise)",
      swaggerUrl := "https://iot-api.acceleronix.io/v2/deviceshadow/v2/api-docs?group=device-shadow-enterpriseapi",
      baseUrl := "https://iot-api.acceleronix.io/v2/deviceshadow",
      auth := some emptyBearerAuth, enabled := true, maxTools := 6 },
    { name := "product_enterprise", title := "Product Management (Enterprise)",
      swaggerUrl := "https://iot-api.acceleronix.io/v2/quecproductmgr/v2/api-docs?group=product-mgr-enterpriseapi",
      baseUrl := "https://iot-api.acceleronix.io/v2/quecproductmgr",
      auth := some emptyBearerAuth, enabled := true, maxTools := 6 },
    { name := "tsl_enterprise", title := "Thing Specification Language (Enterprise)",
      swaggerUrl := "https://iot-api.acceleronix.io/v2/quectsl/v2/api-docs?group=enterpriseApi",
      baseUrl := "https://iot-api.acceleronix.io/v2/quectsl",
      auth := some emptyBearerAuth, enabled := true, maxTools := 6 } ]

/-! ## Parsed specification documents (the Specification Loader output) -/

/-- A declared operation parameter (name plus optional description). -/
structure Param where
  name : String
  description : Option String := none
deriving DecidableEq

/-- A parsed OpenAPI operation object, restricted to the fields the
router reads. -/
structure Operation where
  operationId : Option String := none
  summary : Option String := none
  description : Option String := none
  parameters : Option (List Param) := none
deriving DecidableEq

/-- A path item: the entries produced by `Object.entries(pathItem)`, in
document order.  A `none` value models a falsy entry. -/
abbrev PathItem := List (String × Option Operation)

/-- A security scheme object, kept abstract (only stored, never read by
the routing logic under verification). -/
structure SecurityScheme where
  type : String
deriving DecidableEq

/-- A parsed specification document, restricted to the fields the
router reads.  `paths` is `none` when the document has no (falsy)
`paths` member; an entry with a `none` path item models a falsy path
item value. -/
structure SpecDoc where
  paths : Option (List (String × Option PathItem)) := none
  componentsSecuritySchemes : Option (List (String × SecurityScheme)) := none
  securityDefinitions : Option (List (String × SecurityScheme)) := none
deriving DecidableEq

/-- The flat endpoint record pushed onto `allEndpoints`. -/
structure Endpoint where
  apiName : String
  apiTitle : String
  method : String
  path : String
  operationId : Option String
  summary : Option String
  description : Option String
  parameters : List Param
  operation : Operation
deriving DecidableEq

/-- The endpoint record built for one collected operation. -/
def mkEndpoint (cfg : ApiConfig) (path method : String) (op : Operation) : Endpoint :=
  { apiName := cfg.name, apiTitle := cfg.title, method := jsToUpper method,
    path := path, operationId := op.operationId, summary := op.summary,
    description := op.description, parameters := op.parameters.getD [],
    operation := op }

/-! ## Endpoint Indexer (collectApiEndpoints in src/index.ts) -/

/-- Inner loop of `collectApiEndpoints` over one path item: skips the
cross-document `$ref` key, falsy operations, and everything once the
per-API `maxTools` cap is reached; otherwise collects the endpoint and
bumps the count.  Returns the collected endpoints and the final count. -/
def collectOps (cfg : ApiConfig) (path : String) :
    List (String × Option Operation) → Nat → List Endpoint × Nat
  | [], count => ([], count)
  | (method, op) :: rest, count =>
    if method = "$ref" then collectOps cfg path rest count
    else
      match op with
      | none => collectOps cfg path rest count
      | some op =>
        if cfg.maxTools ≤ count then collectOps cfg path rest count
        else
          let r := collectOps cfg path rest (count + 1)
          (mkEndpoint cfg path method op :: r.1, r.2)

/-- Outer loop of `collectApiEndpoints` over the path entries: breaks
out entirely on a falsy path item or once the cap is reached. -/
def collectPaths (cfg : ApiConfig) :
    List (String × Option PathItem) → Nat → List Endpoint
  | [], _ => []
  | (path, item) :: rest, count =>
    match item with
    | none => []
    | some item =>
      if cfg.maxTools ≤ count then []
      else
        let r := collectOps cfg path item count
        r.1 ++ collectPaths cfg rest r.2

/-- The endpoints `collectApiEndpoints` appends to `allEndpoints` for
one API (empty when the document has no `paths`). -/
def collectApiEndpoints (cfg : ApiConfig) (spec : SpecDoc) : List Endpoint :=
  match spec.paths with
  | none => []
  | some paths => collectPaths cfg paths 0

/-- The operations one path item declares, in document order, after
dropping `$ref` keys and falsy entries — the uncapped candidate list. -/
def itemOps (cfg : ApiConfig) (path : String) : List (String × Option Operation) → List Endpoint
  | [] => []
  | (m, op) :: rest =>
    if m = "$ref" then itemOps cfg path rest
    else
      match op with
      | none => itemOps cfg path rest
      | some op => mkEndpoint cfg path m op :: itemOps cfg path rest

/-- The operations a document declares, in document order, after
dropping `$ref` keys and falsy entries — the candidate list that the
indexer truncates.  Used to state the deterministic-truncation claim. -/
def declaredEndpoints (cfg : ApiConfig) : List (String × Option PathItem) → List Endpoint
  | [] => []
  | (path, item) :: rest =>
    (match item with
     | none => []
     | some item => itemOps cfg path item) ++ declaredEndpoints cfg rest

/-! ## API Catalog loading (init / initializeApi in src/index.ts) -/

/-- The runtime pairing of a config with its parsed document. -/
structure ApiInstance where
  config : ApiConfig
  swaggerSpec : SpecDoc
  securitySchemes : List (String × SecurityScheme)
deriving DecidableEq

/-- The mutable state of the agent: the instance map (insertion order),
the flat endpoint list, and — as instrumentation of the external
collaborator — the trace of specification URLs that were fetched. -/
structure ServerState where
  apiInstances : List (String × ApiInstance) := []
  allEndpoints : List Endpoint := []
  fetchedUrls : List String := []
deriving DecidableEq

/-- Security-scheme extraction: OpenAPI 3.x components first, then
Swagger 2.0 securityDefinitions, else empty. -/
def extractSecuritySchemes (spec : SpecDoc) : List (String × SecurityScheme) :=
  match spec.componentsSecuritySchemes with
  | some s => s
  | none =>
    match spec.securityDefinitions with
    | some s => s
    | none => []

/-- One `initializeApi` call: fetch and parse the specification (the
external collaborator is the `fetchSpec` oracle; a `none` result models
a fetch or parse failure, i.e. the caught exception).  On success the
instance is stored and its endpoints are collected; on failure the
state is unchanged apart from the recorded fetch attempt (log and
continue). -/
def initializeApi (fetchSpec : String → Option SpecDoc)
    (st : ServerState) (cfg : ApiConfig) : ServerState :=
  let st := { st with fetchedUrls := st.fetchedUrls ++ [cfg.swaggerUrl] }
  match fetchSpec cfg.swaggerUrl with
  | none => st
  | some spec =>
    { st with
      apiInstances := setAssoc st.apiInstances cfg.name ⟨cfg, spec, extractSecuritySchemes spec⟩,
      allEndpoints := st.allEndpoints ++ collectApiEndpoints cfg spec }

/-- The `init` loop over the configured APIs: enabled entries are
initialized in order, disabled entries are skipped entirely. -/
def initApis (fetchSpec : String → Option SpecDoc) (configs : List ApiConfig) : ServerState :=
  configs.foldl
    (fun st cfg => if cfg.enabled then initializeApi fetchSpec st cfg else st) {}

/-! ## Request Executor (executeApiCall / addAuthHeaders in src/index.ts) -/

/-- The outbound HTTP request handed to axios: method, fully built URL,
headers, and either query parameters (GET) or a JSON body (other
methods). -/
structure HttpRequest where
  method : String
  url : String
  headers : List (String × String)
  params : Option (List (String × String))
  data : Option (List (String × String))
deriving DecidableEq

/-- The auth-material field names excluded from outbound parameters. -/
def excludedAuthParams : List String := ["auth_token", "api_key", "username", "password"]

/-- Partition of the input into outbound parameters: drops the
auth-material fields and empty values (`value !== undefined && value
!== ''`; in this string-valued model absence is non-membership). -/
def extractQueryParams (input : List (String × String)) : List (String × String) :=
  input.filter (fun kv => !(excludedAuthParams.contains kv.1) && !(kv.2 == ""))

/-- Body parameters reuse the same partition (same logic for now). -/
def extractBodyParams (input : List (String × String)) : List (String × String) :=
  extractQueryParams input

/-- JS `a || b` for two optional credential strings, yielding the
effective string value (`""` stands for the falsy results `undefined`
and the empty string alike; both are only ever tested for truthiness
or interpolated when non-empty). -/
def firstTruthy (a b : Option String) : String :=
  match a with
  | some s => if s = "" then b.getD "" else s
  | none => b.getD ""

/-- The `addAuthHeaders` switch: injects at most one authentication
header per policy variant, falling back from caller-supplied input
fields to the configured defaults, and omitting the header whenever the
effective credential is falsy.  The `oauth2` variant and a missing
`type` fall through the switch unchanged. -/
def addAuthHeaders (headers : List (String × String)) (cfg : ApiConfig)
    (input : List (String × String)) : List (String × String) :=
  match cfg.auth with
  | none => headers
  | some auth =>
    match auth.type with
    | some AuthType.bearer =>
      let token := firstTruthy (List.lookup "auth_token" input) auth.token
      if token = "" then headers
      else setAssoc headers "Authorization" ("Bearer " ++ token)
    | some AuthType.apiKey =>
      let apiKey := firstTruthy (List.lookup "api_key" input) auth.apiKey
      if apiKey = "" then headers
      else if truthy auth.apiKeyName then
        if auth.apiKeyIn = some ApiKeyLoc.header then
          setAssoc headers (auth.apiKeyName.getD "") apiKey
        else headers
      else headers
    | some AuthType.basic =>
      let username := firstTruthy (List.lookup "username" input) auth.username
      let password := firstTruthy (List.lookup "password" input) auth.password
      if username = "" || password = "" then headers
      else setAssoc headers "Authorization" ("Basic " ++ btoa (username ++ ":" ++ password))
    | _ => headers

/-- The path-template placeholder for a field name. -/
def placeholder (k : String) : String := "\x7b" ++ k ++ "\x7d"

/-- One step of the path-parameter substitution loop: when the current
URL contains the braced field name, the first occurrence is replaced by
the URL-encoded value; otherwise the URL is unchanged.  (The source
also guards on the value being a string; in this model all input values
are strings, matching the string-typed input schemas.) -/
def substPathStep (url : String) (kv : String × String) : String :=
  if jsIncludes url (placeholder kv.1) then
    jsReplaceFirst url (placeholder kv.1) (encodeURIComponent kv.2)
  else url

/-- URL construction of `executeApiCall`: `baseUrl + path`, then the
substitution loop over the input fields in order. -/
def buildUrl (baseUrl path : String) (input : List (String × String)) : String :=
  input.foldl substPathStep (baseUrl ++ path)

/-- The pure content of `executeApiCall`: resolves the effective auth
(a caller-supplied override replaces the instance default wholesale),
builds headers and URL, and attaches query parameters for GET or a body
for every other method.  The function is total: ill-formed input can
only produce a request that fails upstream, never an error before the
call is issued. -/
def executeApiCall (cfg : ApiConfig) (path method : String) (_operation : Operation)
    (input : List (String × String)) (authOverride : Option AuthConfig) : HttpRequest :=
  let effectiveAuth : Option AuthConfig :=
    match authOverride with
    | some a => some a
    | none => cfg.auth
  let headers := addAuthHeaders [("Content-Type", "application/json")]
    { cfg with auth := effectiveAuth } input
  let url := buildUrl cfg.baseUrl path input
  if jsToLower method = "get" then
    { method := method, url := url, headers := headers,
      params := some (extractQueryParams input), data := none }
  else
    { method := method, url := url, headers := headers,
      params := none, data := some (extractBodyParams input) }

/-! ## Tool Router call mode (callEndpoint in src/index.ts) -/

/-- The data returned from call mode.  Every failure is returned as a
value (the source returns a content payload from each branch and wraps
the execute step in try/catch), so the router surface never throws. -/
inductive CallOutcome where
  | apiNotFound (apiName : String) (available : List String)
  | endpointNotFound (method path apiName : String)
  | executed (req : HttpRequest)
deriving DecidableEq

/-- Spread of the optional configured auth object (`{...config.auth}`):
a missing auth spreads to the empty object, which carries no `type` and
therefore adds no header. -/
def spreadAuth : Option AuthConfig → AuthConfig
  | some a => a
  | none => {}

/-- The `callEndpoint` flow: resolve the API by name (not-found lists
the loaded API names), resolve the endpoint by (name, METHOD, path),
copy the configured auth and overwrite its token with a truthy
caller-supplied token, then execute. -/
def callEndpoint (st : ServerState) (apiName method path : String)
    (parameters : List (String × String)) (authToken : Option String) : CallOutcome :=
  match List.lookup apiName st.apiInstances with
  | none => CallOutcome.apiNotFound apiName (st.apiInstances.map Prod.fst)
  | some inst =>
    match st.allEndpoints.find? (fun ep =>
        ep.apiName == apiName && ep.method == jsToUpper method && ep.path == path) with
    | none => CallOutcome.endpointNotFound (jsToUpper method) path apiName
    | some ep =>
      let authConfig := spreadAuth inst.config.auth
      let authConfig := if truthy authToken then { authConfig with token := authToken } else authConfig
      CallOutcome.executed
        (executeApiCall inst.config path (jsToLower method) ep.operation parameters (some authConfig))

/-! ## Endpoint Search (searchEndpoints in src/index.ts) -/

/-- The searchable text of an endpoint:
`[path, summary, description, operationId, apiTitle, apiName].join(' ')`,
where a missing field joins as the empty string. -/
def searchableText (ep : Endpoint) : String :=
  ep.path ++ " " ++ ep.summary.getD "" ++ " " ++ ep.description.getD "" ++ " " ++
    ep.operationId.getD "" ++ " " ++ ep.apiTitle ++ " " ++ ep.apiName

/-- The filter of `searchEndpoints`: case-insensitive substring match
of the query against the searchable text. -/
def matchingEndpoints (eps : List Endpoint) (query : String) : List Endpoint :=
  let searchQuery := jsToLower query
  eps.filter (fun ep => jsIncludes (jsToLower (searchableText ep)) searchQuery)

/-- The content of a search response: either the distinct no-matches
message, or the displayed matches (sliced to the first 10), the total
count, and whether the truncation note (total greater than 10) was
appended. -/
inductive SearchOutcome where
  | noMatches (query : String)
  | results (shown : List Endpoint) (total : Nat) (truncated : Bool)
deriving DecidableEq

/-- The `searchEndpoints` outcome, abstracting the markdown rendering
to its structured content. -/
def searchEndpoints (eps : List Endpoint) (query : String) : SearchOutcome :=
  let m := matchingEndpoints eps query
  if m.isEmpty then SearchOutcome.noMatches query
  else SearchOutcome.results (m.take 10) m.length (decide (10 < m.length))

/-- The search predicate as the claim words it: the lower-cased
concatenation of path, summary, description, operation identifier, API
title and API name (space separated, absent fields empty) contains the
lower-cased query as a substring. -/
def claimSearchMatch (query : String) (ep : Endpoint) : Bool :=
  jsIncludes
    (jsToLower ep.path ++ " " ++ jsToLower (ep.summary.getD "") ++ " " ++
      jsToLower (ep.description.getD "") ++ " " ++ jsToLower (ep.operationId.getD "") ++ " " ++
      jsToLower ep.apiTitle ++ " " ++ jsToLower ep.apiName)
    (jsToLower query)

/-! ## Combined search-or-call tool (search_api handler in src/index.ts) -/

/-- The optional fields of the `search_api` input schema. -/
structure SearchApiInput where
  query : Option String := none
  api_name : Option String := none
  method : Option String := none
  path : Option String := none
  parameters : Option (List (String × String)) := none
  auth_token : Option String := none
deriving DecidableEq

/-- The action the `search_api` handler takes. -/
inductive SearchApiAction where
  | searchMode (query : String)
  | callMode (apiName method path : String) (parameters : List (String × String))
      (authToken : Option String)
  | usageError
deriving DecidableEq

/-- The dispatch of the `search_api` handler: query truthy with
api_name, method and path all falsy selects search mode; api_name,
method and path all truthy selects call mode (with `parameters || {}`);
anything else returns the invalid-usage response describing both
modes. -/
def searchApiDispatch (inp : SearchApiInput) : SearchApiAction :=
  if truthy inp.query && !truthy inp.api_name && !truthy inp.method && !truthy inp.path then
    SearchApiAction.searchMode (inp.query.getD "")
  else if truthy inp.api_name && truthy inp.method && truthy inp.path then
    SearchApiAction.callMode (inp.api_name.getD "") (inp.method.getD "") (inp.path.getD "")
      (inp.parameters.getD []) inp.auth_token
  else SearchApiAction.usageError

/-! ## Identifier Normalizer (simplifyOperationId in the router's
earlier revision) -/

/-- The HTTP verbs of the noise-suffix pattern, in alternation order. -/
def httpVerbs : List String := ["GET", "POST", "PUT", "DELETE", "PATCH"]

/-- Optional numeric disambiguator: the remainder after the verb must
be empty or an underscore followed by one or more digits, ending the
string (the regex tail is anchored). -/
def numSuffixOk : List Char → Bool
  | [] => true
  | c :: ds => c = '_' && !(ds = []) && ds.all Char.isDigit

/-- Whether the remainder of the string, from this position to its end,
matches the verb-suffix pattern `UsingVERB` with an optional `_digits`
tail. -/
def verbSuffixMatch (t : List Char) : Bool :=
  "Using".data.isPrefixOf t &&
  httpVerbs.any (fun v =>
    v.data.isPrefixOf (t.drop 5) && numSuffixOk ((t.drop 5).drop v.data.length))

/-- First replacement of `simplifyOperationId`: strip the leftmost
(equivalently, because the pattern is end-anchored, the only) verb
suffix match. -/
def stripUsingSuffix : List Char → List Char
  | [] => []
  | c :: cs => if verbSuffixMatch (c :: cs) then [] else c :: stripUsingSuffix cs

/-- Second replacement: strip a trailing `Controller`. -/
def stripControllerSuffix : List Char → List Char
  | [] => []
  | c :: cs =>
    if c :: cs = "Controller".data then [] else c :: stripControllerSuffix cs

/-- The curated override table of `simplifyOperationId`, verbatim. -/
def operationIdMappings : List (String × String) :=
  [ ("deviceDetail", "device_detail"),
    ("deviceList", "device_list"),
    ("verifiedDevice", "verify_device"),
    ("addSnList", "add_sn_list"),
    ("deleteSnList", "delete_sn_list"),
    ("findDkList", "find_dk_list"),
    ("findSnList", "find_sn_list"),
    ("generateSnList", "generate_sn_list"),
    ("appQueryProductPanel", "query_product_panel"),
    ("appReportingCapability", "reporting_capability"),
    ("appRequestPanelByPk", "request_panel_by_pk"),
    ("guidanceDetail", "guidance_detail"),
    ("itemList", "item_list"),
    ("setting", "get_setting"),
    ("batchControlDevice", "batch_control_device"),
    ("batchGetPureBtResetCredentials", "batch_get_bt_reset_credentials"),
    ("batchUnbindlingDevice", "batch_unbind_device"),
    ("bind3rdMatterDevice", "bind_matter_device"),
    ("bindDeviceBt", "bind_device_bt"),
    ("bindDeviceDk", "bind_device_dk"),
    ("bindDeviceByPkDk", "bind_device_by_pk_dk"),
    ("deviceUserList", "device_user_list"),
    ("getUserListByBind", "get_user_list_by_bind"),
    ("unbundlingUserDevice", "unbind_user_device"),
    ("userDeviceList", "user_device_list"),
    ("verifyBindingCode", "verify_binding_code"),
    ("acceptDeviceGroupShare", "accept_group_share"),
    ("addDeviceGroup", "add_device_group"),
    ("addDeviceToGroup", "add_device_to_group"),
    ("deleteDeviceGroup", "delete_device_group"),
    ("deleteDeviceToGroup", "remove_device_from_group"),
    ("getLocation", "get_location"),
    ("sendData", "send_data"),
    ("batchSendData", "batch_send_data"),
    ("deviceResource", "device_resource"),
    ("sendData2", "send_data_v2"),
    ("readData", "read_data"),
    ("addConsentRecord", "add_consent_record"),
    ("addReasonCancellation", "add_reason_cancellation"),
    ("alipayAuthLogin", "alipay_auth_login"),
    ("appLogUpload", "app_log_upload"),
    ("appleAuthLogin", "apple_auth_login"),
    ("productDetail", "product_detail"),
    ("overviewProjects", "overview_projects"),
    ("overviewProducts", "overview_products"),
    ("products", "products"),
    ("openApiProductDetailV3", "open_api_product_detail_v3"),
    ("addDeviceUpgrade", "add_device_upgrade"),
    ("closeFinishTips", "close_finish_tips"),
    ("deleteDeviceUpgrade", "delete_device_upgrade"),
    ("getAutoUpgradeSwitch", "get_auto_upgrade_switch"),
    ("getDeviceUpgradePlan", "get_device_upgrade_plan"),
    ("getZhxyPropertyDataList", "get_zhxy_property_data_list"),
    ("getDeviceEventList", "get_device_event_list"),
    ("getLocationHistory", "get_location_history"),
    ("getPropertyChartList", "get_property_chart_list"),
    ("getPropertyDataList", "get_property_data_list"),
    ("deviceLocationDelete", "delete_device_location"),
    ("deviceLocationFind", "find_device_location"),
    ("deviceLocationSave", "save_device_location"),
    ("obtainCurrentWeatherOnDk", "get_current_weather") ]

/-- Mechanical conversion step: an underscore inserted before every
ASCII uppercase letter, then lower-cased. -/
def camelToSnake (l : List Char) : List Char :=
  (l.flatMap (fun c => if c.isUpper then ['_', c] else [c])).map Char.toLower

/-- Strip a single leading underscore (`replace(/^_/, '')`). -/
def dropOneLeadingUnderscore : List Char → List Char
  | '_' :: cs => cs
  | l => l

/-- Collapse every run of underscores to a single underscore
(`replace(/_+/g, '_')`); the flag records whether the previous kept
character was an underscore. -/
def collapseUnderscores : Bool → List Char → List Char
  | _, [] => []
  | prev, c :: cs =>
    if c = '_' then
      if prev then collapseUnderscores true cs
      else '_' :: collapseUnderscores true cs
    else c :: collapseUnderscores false cs

/-- The operation-identifier normalization: strip noise suffixes, use a
curated override verbatim when present, otherwise convert camelCase to
snake_case, strip a leading separator and collapse repeated ones. -/
def simplifyOperationId (operationId : String) : String :=
  let simplified := String.mk (stripControllerSuffix (stripUsingSuffix operationId.data))
  match List.lookup simplified operationIdMappings with
  | some m => m
  | none =>
    String.mk (collapseUnderscores false (dropOneLeadingUnderscore (camelToSnake simplified.data)))

/-- The externally exposed tool identifier for an endpoint, namespaced
by the API name, as specified for the Identifier Normalizer (the
revision that registers per-endpoint tools concatenates
`config.name + "_" + operationId` before normalization was introduced). -/
def toolIdentifier (apiName operationId : String) : String :=
  apiName ++ "_" ++ simplifyOperationId operationId

/-! ## The demo scenario of the specification -/

/-- Bearer auth with default token "abc". -/
def demoAuth : AuthConfig := { type := some AuthType.bearer, token := some "abc" }

/-- The demo API of the specification scenario: name "demo", base URL
"https://x/api", bearer auth with default "abc". -/
def demoConfig : ApiConfig :=
  { name := "demo", title := "Demo API", swaggerUrl := "https://x/swagger.json",
    baseUrl := "https://x/api", auth := some demoAuth, enabled := true, maxTools := 10 }

/-- The single indexed operation of the demo API. -/
def demoOperation : Operation :=
  { operationId := some "getItem", summary := some "Get one item",
    description := some "Returns an item by id",
    parameters := some [{ name := "id", description := some "Item id" }] }

/-- The demo specification document: one endpoint GET /items/(id). -/
def demoSpec : SpecDoc :=
  { paths := some [("/items/\x7bid\x7d", some [("get", some demoOperation)])] }

/-- The fetch oracle serving the demo document at the configured URL. -/
def demoFetch : String → Option SpecDoc := fun u =>
  if u = "https://x/swagger.json" then some demoSpec else none

/-- The server state after initializing the demo configuration. -/
def demoState : ServerState := initApis demoFetch [demoConfig]

/-- The call-mode invocation of the demo scenario: GET /items/(id) with
input field id = "42" and no caller-supplied token. -/
def demoCall : CallOutcome :=
  callEndpoint demoState "demo" "GET" "/items/\x7bid\x7d" [("id", "42")] none

/-- The query parameters attached to an executed outcome (none for the
failure outcomes). -/
def outcomeParams : CallOutcome → Option (List (String × String))
  | CallOutcome.executed r => r.params
  | _ => none

/-- The endpoints one configured API contributes to the flat endpoint
list during init: nothing when disabled or when its fetch fails, its
collected endpoints otherwise. -/
def apiContribution (fetchSpec : String → Option SpecDoc) (cfg : ApiConfig) : List Endpoint :=
  if cfg.enabled then
    match fetchSpec cfg.swaggerUrl with
    | some spec => collectApiEndpoints cfg spec
    | none => []
  else []

/-- A small config with a cap of 2, used to witness cap truncation. -/
def capConfig : ApiConfig :=
  { name := "cap", title := "Capped API", swaggerUrl := "https://cap/swagger.json",
    baseUrl := "https://cap/api", auth := none, enabled := true, maxTools := 2 }

/-- A document declaring three operations, one more than the cap. -/
def capSpec : SpecDoc :=
  { paths := some
      [ ("/a", some [("get", some { operationId := some "aGet" }),
                     ("post", some { operationId := some "aPost" })]),
        ("/b", some [("get", some { operationId := some "bGet" })]) ] }

/-- Fetch oracle for the capped API. -/
def capFetch : String → Option SpecDoc := fun u =>
  if u = "https://cap/swagger.json" then some capSpec else none

/-! ## Path-template rendering (used to state the substitution claim) -/

/-- A character list containing neither curly brace. -/
def braceFree (l : List Char) : Prop := ∀ c ∈ l, c ≠ lbrace ∧ c ≠ rbrace

/-- A path template presented as segments: each segment is a
placeholder name followed by a literal stretch. -/
def renderTemplate : List (String × String) → String
  | [] => ""
  | s :: rest => placeholder s.1 ++ s.2 ++ renderTemplate rest

/-- The claim's expected result of substitution: every placeholder
whose name is an input field is replaced by the URL-encoded value;
every other placeholder remains literally; literal stretches are
untouched. -/
def renderSubstituted (input : List (String × String)) : List (String × String) → String
  | [] => ""
  | s :: rest =>
    (match List.lookup s.1 input with
     | some v => encodeURIComponent v
     | none => placeholder s.1) ++ s.2 ++ renderSubstituted input rest

/-- Proof scaffolding: a URL during substitution is an interleaving of
brace-free chunks and placeholder holes. -/
inductive MTok where
  | chunk (s : List Char)
  | hole (p : List Char)

/-- Rendering of one token. -/
def renderMTok : MTok → List Char
  | MTok.chunk s => s
  | MTok.hole p => lbrace :: (p ++ [rbrace])

/-- Rendering of a token list. -/
def renderMix (toks : List MTok) : List Char := toks.flatMap renderMTok

/-- The hole names of a token list. -/
def holesOf : List MTok → List (List Char)
  | [] => []
  | MTok.chunk _ :: rest => holesOf rest
  | MTok.hole p :: rest => p :: holesOf rest

/-- Well-formedness of one token: its payload is brace-free. -/
def tokOk : MTok → Prop
  | MTok.chunk s => braceFree s
  | MTok.hole p => braceFree p

instance braceFreeDecidable (l : List Char) : Decidable (braceFree l) := by
  unfold braceFree
  infer_instance

/-- The tokens contributed by one segment, given the inputs substituted
so far. -/
def segTok (input : List (String × String)) (s : String × String) : List MTok :=
  match List.lookup s.1 input with
  | some v => [MTok.chunk (encodeURIComponent v).data, MTok.chunk s.2.data]
  | none => [MTok.hole s.1.data, MTok.chunk s.2.data]

/-- The tokens of a partially substituted template. -/
def segsToks (input : List (String × String)) (segs : List (String × String)) : List MTok :=
  segs.flatMap (segTok input)

/-- An enabled config whose specification URL the demo oracle does not
serve: its fetch fails. -/
def failConfig : ApiConfig :=
  { name := "bad", title := "Failing API", swaggerUrl := "https://bad/swagger.json",
    baseUrl := "https://bad/api", auth := none, enabled := true, maxTools := 5 }

/-- A disabled config. -/
def disabledConfig : ApiConfig :=
  { name := "off", title := "Disabled API", swaggerUrl := "https://off/swagger.json",
    baseUrl := "https://off/api", auth := none, enabled := false, maxTools := 5 }

/-! ## Supporting lemmas -/

theorem lookup_setAssoc_self {α : Type} (l : List (String × α)) (k : String) (v : α) :
    List.lookup k (setAssoc l k v) = some v := by
  induction l with
  | nil => simp [setAssoc, List.lookup]
  | cons hd tl ih =>
    by_cases hk : hd.1 = k
    · simp [setAssoc, hk, List.lookup]
    · simp only [setAssoc]
      rw [if_neg hk]
      simp only [List.lookup]
      rw [show (k == hd.1) = false from beq_eq_false_iff_ne.mpr (Ne.symm hk)]
      exact ih

theorem lookup_setAssoc_ne {α : Type} (l : List (String × α)) (k k' : String) (v : α)
    (h : k' ≠ k) : List.lookup k' (setAssoc l k v) = List.lookup k' l := by
  induction l with
  | nil =>
    simp only [setAssoc, List.lookup]
    rw [show (k' == k) = false from beq_eq_false_iff_ne.mpr h]
  | cons hd tl ih =>
    by_cases hk : hd.1 = k
    · simp only [setAssoc]
      rw [if_pos hk]
      simp only [List.lookup]
      rw [show (k' == k) = false from beq_eq_false_iff_ne.mpr h,
        show (k' == hd.1) = false from beq_eq_false_iff_ne.mpr (hk ▸ h)]
    · simp only [setAssoc]
      rw [if_neg hk]
      simp only [List.lookup]
      cases hbe : k' == hd.1 with
      | true => rfl
      | false => exact ih

theorem executeApiCall_headers (cfg : ApiConfig) (path method : String) (op : Operation)
    (input : List (String × String)) (ov : Option AuthConfig) :
    (executeApiCall cfg path method op input ov).headers =
      addAuthHeaders [("Content-Type", "application/json")]
        { cfg with auth := match ov with | some a => some a | none => cfg.auth } input := by
  cases ov <;> unfold executeApiCall <;> dsimp only <;> split <;> rfl

theorem addAuthHeaders_bearer (h : List (String × String)) (cfg : ApiConfig) (a : AuthConfig)
    (input : List (String × String)) (hauth : cfg.auth = some a)
    (htype : a.type = some AuthType.bearer) :
    addAuthHeaders h cfg input =
      (if firstTruthy (List.lookup "auth_token" input) a.token = "" then h
       else setAssoc h "Authorization"
         ("Bearer " ++ firstTruthy (List.lookup "auth_token" input) a.token)) := by
  unfold addAuthHeaders
  rw [hauth]
  dsimp only
  rw [htype]

theorem addAuthHeaders_basic (h : List (String × String)) (cfg : ApiConfig) (a : AuthConfig)
    (input : List (String × String)) (hauth : cfg.auth = some a)
    (htype : a.type = some AuthType.basic) :
    addAuthHeaders h cfg input =
      (if firstTruthy (List.lookup "username" input) a.username = "" ∨
          firstTruthy (List.lookup "password" input) a.password = "" then h
       else setAssoc h "Authorization"
         ("Basic " ++ btoa (firstTruthy (List.lookup "username" input) a.username ++ ":" ++
            firstTruthy (List.lookup "password" input) a.password))) := by
  unfold addAuthHeaders
  rw [hauth]
  dsimp only
  rw [htype]
  dsimp only
  by_cases hu : firstTruthy (List.lookup "username" input) a.username = "" <;>
    by_cases hp : firstTruthy (List.lookup "password" input) a.password = "" <;>
      simp [hu, hp]

/-! ## Claim C1 -/

/-- C1 (counterexample): invoking the demo API (bearer default "abc",
endpoint GET /items/(id)) with input id = "42" does produce the URL
https://x/api/items/42 and the Bearer header, but the query-parameter
set attached to the request is (id, 42), not empty: the id field is not
consumed by path substitution, because extractQueryParams only excludes
the auth-material field names. -/
theorem C1_queryparams_not_empty :
    outcomeParams demoCall = some [("id", "42")] ∧ outcomeParams demoCall ≠ some [] := by
  constructor
  · decide
  · decide

/-- C1 (amended): for the demo API (name "demo", baseUrl "https://x/api",
bearer auth with default token "abc") with one indexed endpoint GET
/items/(id), calling execute with input (id, "42") issues a GET request
to exactly https://x/api/items/42 with header Authorization: Bearer abc,
and the query-parameter set attached to the request is exactly
((id, 42)): path substitution does not consume the field, which is sent
again as a query parameter. -/
theorem C1_demo_request :
    demoCall = CallOutcome.executed
      { method := "get", url := "https://x/api/items/42",
        headers := [("Content-Type", "application/json"), ("Authorization", "Bearer abc")],
        params := some [("id", "42")], data := none } := by
  decide

/-! ## Claim C4 -/

/-- C4: for an API whose auth policy is bearer with a non-empty default
token T, executing any endpoint with no caller-supplied token puts the
header Authorization with value exactly "Bearer T" on the request; a
caller-supplied override token U — whether installed by callEndpoint as
the override auth object's token or passed as the auth_token input
field — produces exactly "Bearer U" instead. -/
theorem C4_bearer_token_header :
    ∀ (cfg : ApiConfig) (a : AuthConfig) (path method : String) (op : Operation)
      (input : List (String × String)),
      cfg.auth = some a → a.type = some AuthType.bearer →
      ((∀ T, a.token = some T → T ≠ "" → List.lookup "auth_token" input = none →
         List.lookup "Authorization" (executeApiCall cfg path method op input none).headers =
           some ("Bearer " ++ T)) ∧
       (∀ U, U ≠ "" → List.lookup "auth_token" input = none →
         List.lookup "Authorization"
           (executeApiCall cfg path method op input (some { a with token := some U })).headers =
           some ("Bearer " ++ U)) ∧
       (∀ U, U ≠ "" → List.lookup "auth_token" input = some U →
         List.lookup "Authorization" (executeApiCall cfg path method op input none).headers =
           some ("Bearer " ++ U))) := by
  intro cfg a path method op input hauth htype
  refine ⟨fun T htok hT hlk => ?_, fun U hU hlk => ?_, fun U hU hlk => ?_⟩
  · rw [executeApiCall_headers,
      addAuthHeaders_bearer _ _ a _ (by simpa using hauth) htype, hlk]
    simp only [firstTruthy, htok, Option.getD_some]
    rw [if_neg hT]
    exact lookup_setAssoc_self _ _ _
  · rw [executeApiCall_headers,
      addAuthHeaders_bearer _ _ { a with token := some U } _ rfl htype, hlk]
    simp only [firstTruthy, Option.getD_some]
    rw [if_neg hU]
    exact lookup_setAssoc_self _ _ _
  · rw [executeApiCall_headers,
      addAuthHeaders_bearer _ _ a _ (by simpa using hauth) htype, hlk]
    simp only [firstTruthy]
    rw [if_neg hU, if_neg hU]
    exact lookup_setAssoc_self _ _ _

/-- C4 (witness): the demo API's default token "abc" produces header
value "Bearer abc", and an override token "xyz" produces "Bearer xyz". -/
theorem C4_bearer_token_header_witness :
    List.lookup "Authorization"
      (executeApiCall demoConfig "/items/\x7bid\x7d" "get" demoOperation [] none).headers =
      some "Bearer abc" ∧
    List.lookup "Authorization"
      (executeApiCall demoConfig "/items/\x7bid\x7d" "get" demoOperation []
        (some { demoAuth with token := some "xyz" })).headers = some "Bearer xyz" := by
  have h := C4_bearer_token_header demoConfig demoAuth "/items/\x7bid\x7d" "get"
    demoOperation [] rfl rfl
  exact ⟨h.1 "abc" rfl (by decide) rfl, h.2.1 "xyz" (by decide) rfl⟩

/-! ## Claim C10 -/

/-- C10: every shipped default configuration entry sets a bearer token
of ""; when the effective bearer token resolved at call time is empty
(no caller override, empty or missing default), execute adds no
Authorization header at all — the headers stay exactly Content-Type —
and likewise for basic auth when the effective username or password is
empty. -/
theorem C10_empty_credential_omits_header :
    (∀ c ∈ defaultConfigApis, c.auth = some { type := some AuthType.bearer, token := some "" }) ∧
    (∀ (cfg : ApiConfig) (a : AuthConfig) (path method : String) (op : Operation)
       (input : List (String × String)),
       cfg.auth = some a → a.type = some AuthType.bearer →
       firstTruthy (List.lookup "auth_token" input) a.token = "" →
       (executeApiCall cfg path method op input none).headers =
         [("Content-Type", "application/json")]) ∧
    (∀ (cfg : ApiConfig) (a : AuthConfig) (path method : String) (op : Operation)
       (input : List (String × String)),
       cfg.auth = some a → a.type = some AuthType.basic →
       (firstTruthy (List.lookup "username" input) a.username = "" ∨
        firstTruthy (List.lookup "password" input) a.password = "") →
       (executeApiCall cfg path method op input none).headers =
         [("Content-Type", "application/json")]) := by
  refine ⟨by decide, ?_, ?_⟩
  · intro cfg a path method op input hauth htype heff
    rw [executeApiCall_headers,
      addAuthHeaders_bearer _ _ a _ (by simpa using hauth) htype, if_pos heff]
  · intro cfg a path method op input hauth htype heff
    rw [executeApiCall_headers,
      addAuthHeaders_basic _ _ a _ (by simpa using hauth) htype, if_pos heff]

/-- C10 (witness): executing under the first shipped default config's
auth (bearer with token "") with no caller token sends only the
Content-Type header. -/
theorem C10_empty_credential_omits_header_witness :
    (executeApiCall
      { name := "d", title := "D", swaggerUrl := "u", baseUrl := "b",
        auth := some emptyBearerAuth, enabled := true, maxTools := 1 }
      "/p" "get" {} [] none).headers = [("Content-Type", "application/json")] := by
  exact C10_empty_credential_omits_header.2.1 _ emptyBearerAuth "/p" "get" {} []
    rfl rfl (by decide)

/-! ## Claim C9 -/

/-- C9: the combined search-or-call tool dispatches on which fields are
populated (truthy): query populated with api_name, method and path all
unpopulated runs search mode; api_name, method and path all populated
runs call mode; every other combination returns the usage-error
response describing both modes. -/
theorem C9_search_api_dispatch :
    ∀ inp : SearchApiInput,
      ((truthy inp.query = true → truthy inp.api_name = false → truthy inp.method = false →
          truthy inp.path = false →
          searchApiDispatch inp = SearchApiAction.searchMode (inp.query.getD "")) ∧
       (truthy inp.api_name = true → truthy inp.method = true → truthy inp.path = true →
          searchApiDispatch inp = SearchApiAction.callMode (inp.api_name.getD "")
            (inp.method.getD "") (inp.path.getD "") (inp.parameters.getD []) inp.auth_token) ∧
       (¬(truthy inp.query = true ∧ truthy inp.api_name = false ∧ truthy inp.method = false ∧
            truthy inp.path = false) →
        ¬(truthy inp.api_name = true ∧ truthy inp.method = true ∧ truthy inp.path = true) →
          searchApiDispatch inp = SearchApiAction.usageError)) := by
  intro inp
  refine ⟨fun h1 h2 h3 h4 => ?_, fun h1 h2 h3 => ?_, fun hA hB => ?_⟩
  · simp [searchApiDispatch, h1, h2, h3, h4]
  · simp [searchApiDispatch, h1, h2, h3]
  · have c1 : ¬((truthy inp.query && !truthy inp.api_name && !truthy inp.method &&
        !truthy inp.path) = true) := by
      simpa [Bool.and_eq_true, Bool.not_eq_true', and_assoc] using hA
    have c2 : ¬((truthy inp.api_name && truthy inp.method && truthy inp.path) = true) := by
      simpa [Bool.and_eq_true, and_assoc] using hB
    simp [searchApiDispatch, c1, c2]

/-- C9 (witness): a query-only input dispatches to search mode. -/
theorem C9_search_api_dispatch_witness :
    searchApiDispatch { query := some "product" } = SearchApiAction.searchMode "product" :=
  (C9_search_api_dispatch { query := some "product" }).1 (by decide) (by decide)
    (by decide) (by decide)

/-! ## Claim C2: indexer lemmas -/

theorem collectOps_spec (cfg : ApiConfig) (path : String)
    (item : List (String × Option Operation)) :
    ∀ count, (collectOps cfg path item count).1 =
        (itemOps cfg path item).take (cfg.maxTools - count) ∧
      (collectOps cfg path item count).2 =
        count + min (itemOps cfg path item).length (cfg.maxTools - count) := by
  induction item with
  | nil => intro count; simp [collectOps, itemOps]
  | cons hd tl ih =>
    intro count
    obtain ⟨m, op⟩ := hd
    by_cases href : m = "$ref"
    · simpa [collectOps, itemOps, href] using ih count
    · cases op with
      | none => simpa [collectOps, itemOps, href] using ih count
      | some op =>
        by_cases hcap : cfg.maxTools ≤ count
        · have h0 : cfg.maxTools - count = 0 := Nat.sub_eq_zero_of_le hcap
          have := ih count
          simp only [collectOps, itemOps, if_neg href, if_pos hcap] at this ⊢
          simp [this.1, this.2, h0]
        · have hk : cfg.maxTools - count = (cfg.maxTools - (count + 1)) + 1 := by omega
          obtain ⟨ih1, ih2⟩ := ih (count + 1)
          simp only [collectOps, itemOps, if_neg href, if_neg hcap]
          constructor
          · simp only [ih1, hk, List.take_succ_cons]
          · simp only [List.length_cons]
            omega

theorem collectPaths_length (cfg : ApiConfig) (paths : List (String × Option PathItem)) :
    ∀ count, (collectPaths cfg paths count).length ≤ cfg.maxTools - count := by
  induction paths with
  | nil => intro count; simp [collectPaths]
  | cons hd tl ih =>
    intro count
    obtain ⟨path, item⟩ := hd
    cases item with
    | none => simp [collectPaths]
    | some item =>
      by_cases hcap : cfg.maxTools ≤ count
      · simp [collectPaths, if_pos hcap]
      · have hspec := collectOps_spec cfg path item count
        simp only [collectPaths, if_neg hcap, List.length_append]
        have h1 : (collectOps cfg path item count).1.length =
            min (cfg.maxTools - count) (itemOps cfg path item).length := by
          rw [hspec.1]
          exact List.length_take _ _
        rw [hspec.2]
        have h2 := ih (count + min (itemOps cfg path item).length (cfg.maxTools - count))
        omega

theorem collectPaths_take (cfg : ApiConfig) (paths : List (String × Option PathItem)) :
    ∀ count, (∀ p ∈ paths, p.2.isSome) →
      collectPaths cfg paths count = (declaredEndpoints cfg paths).take (cfg.maxTools - count) := by
  induction paths with
  | nil => intro count _; simp [collectPaths, declaredEndpoints]
  | cons hd tl ih =>
    intro count hsome
    obtain ⟨path, item⟩ := hd
    cases item with
    | none => exact absurd (hsome (path, none) (List.mem_cons_self _ _)) (by simp)
    | some item =>
      have htl : ∀ p ∈ tl, p.2.isSome := fun p hp => hsome p (List.mem_cons_of_mem _ hp)
      by_cases hcap : cfg.maxTools ≤ count
      · have h0 : cfg.maxTools - count = 0 := Nat.sub_eq_zero_of_le hcap
        simp [collectPaths, if_pos hcap, h0]
      · have hspec := collectOps_spec cfg path item count
        simp only [collectPaths, if_neg hcap, declaredEndpoints]
        rw [hspec.1, ih _ htl, hspec.2, List.take_append_eq_append_take]
        congr 1
        congr 1
        omega

theorem collectApiEndpoints_length_le (cfg : ApiConfig) (spec : SpecDoc) :
    (collectApiEndpoints cfg spec).length ≤ cfg.maxTools := by
  unfold collectApiEndpoints
  cases spec.paths with
  | none => simp
  | some paths => simpa using collectPaths_length cfg paths 0

theorem mem_collectOps_apiName (cfg : ApiConfig) (path : String)
    (item : List (String × Option Operation)) :
    ∀ count e, e ∈ (collectOps cfg path item count).1 → e.apiName = cfg.name := by
  induction item with
  | nil => intro count e he; simp [collectOps] at he
  | cons hd tl ih =>
    intro count e he
    obtain ⟨m, op⟩ := hd
    by_cases href : m = "$ref"
    · exact ih count e (by simpa [collectOps, href] using he)
    · cases op with
      | none => exact ih count e (by simpa [collectOps, href] using he)
      | some op =>
        by_cases hcap : cfg.maxTools ≤ count
        · exact ih count e (by simpa [collectOps, href, hcap] using he)
        · simp only [collectOps, if_neg href, if_neg hcap, List.mem_cons] at he
          rcases he with rfl | he
          · rfl
          · exact ih (count + 1) e he

theorem mem_collectPaths_apiName (cfg : ApiConfig) (paths : List (String × Option PathItem)) :
    ∀ count e, e ∈ collectPaths cfg paths count → e.apiName = cfg.name := by
  induction paths with
  | nil => intro count e he; simp [collectPaths] at he
  | cons hd tl ih =>
    intro count e he
    obtain ⟨path, item⟩ := hd
    cases item with
    | none => simp [collectPaths] at he
    | some item =>
      by_cases hcap : cfg.maxTools ≤ count
      · simp [collectPaths, if_pos hcap] at he
      · simp only [collectPaths, if_neg hcap, List.mem_append] at he
        rcases he with he | he
        · exact mem_collectOps_apiName cfg path item count e he
        · exact ih _ e he

theorem mem_collectApiEndpoints_apiName (cfg : ApiConfig) (spec : SpecDoc) (e : Endpoint)
    (he : e ∈ collectApiEndpoints cfg spec) : e.apiName = cfg.name := by
  unfold collectApiEndpoints at he
  cases hpp : spec.paths with
  | none => rw [hpp] at he; simp at he
  | some paths =>
    rw [hpp] at he
    exact mem_collectPaths_apiName cfg paths 0 e he

theorem mem_apiContribution_apiName (fetchSpec : String → Option SpecDoc)
    (cfg : ApiConfig) (e : Endpoint) (he : e ∈ apiContribution fetchSpec cfg) :
    e.apiName = cfg.name := by
  unfold apiContribution at he
  by_cases hen : cfg.enabled
  · rw [if_pos hen] at he
    cases hf : fetchSpec cfg.swaggerUrl with
    | none => rw [hf] at he; simp at he
    | some spec =>
      rw [hf] at he
      exact mem_collectApiEndpoints_apiName cfg spec e he
  · rw [if_neg hen] at he; simp at he

theorem apiContribution_length_le (fetchSpec : String → Option SpecDoc) (cfg : ApiConfig) :
    (apiContribution fetchSpec cfg).length ≤ cfg.maxTools := by
  unfold apiContribution
  by_cases hen : cfg.enabled
  · rw [if_pos hen]
    cases hf : fetchSpec cfg.swaggerUrl with
    | none => simp
    | some spec => exact collectApiEndpoints_length_le cfg spec
  · rw [if_neg hen]; simp

theorem initApis_allEndpoints_aux (fetchSpec : String → Option SpecDoc) :
    ∀ (configs : List ApiConfig) (st : ServerState),
      (configs.foldl
        (fun st cfg => if cfg.enabled then initializeApi fetchSpec st cfg else st) st).allEndpoints
        = st.allEndpoints ++ configs.flatMap (apiContribution fetchSpec) := by
  intro configs
  induction configs with
  | nil => intro st; simp
  | cons c cs ih =>
    intro st
    simp only [List.foldl_cons, List.flatMap_cons]
    rw [ih]
    by_cases hen : c.enabled
    · simp only [if_pos hen, initializeApi, apiContribution]
      cases hf : fetchSpec c.swaggerUrl with
      | none => simp [List.append_assoc]
      | some spec => simp [List.append_assoc]
    · simp [if_neg hen, apiContribution, hen]

theorem initApis_allEndpoints (fetchSpec : String → Option SpecDoc) (configs : List ApiConfig) :
    (initApis fetchSpec configs).allEndpoints = configs.flatMap (apiContribution fetchSpec) := by
  unfold initApis
  rw [initApis_allEndpoints_aux]
  rfl

/-- C2: for every loaded API the number of indexed endpoints never
exceeds the configured maxTools cap; when the document declares more
operations than the cap (and each path item is a real object), exactly
the earliest-declared operations in document order are retained — the
collected list is the plain prefix of the declared operation list; and
in the flat endpoint list populated by init, the per-API endpoint count
is bounded by that API's cap. -/
theorem C2_maxTools_cap :
    (∀ (cfg : ApiConfig) (spec : SpecDoc),
       (collectApiEndpoints cfg spec).length ≤ cfg.maxTools) ∧
    (∀ (cfg : ApiConfig) (spec : SpecDoc) (paths : List (String × Option PathItem)),
       spec.paths = some paths → (∀ p ∈ paths, p.2.isSome) →
       collectApiEndpoints cfg spec = (declaredEndpoints cfg paths).take cfg.maxTools) ∧
    (∀ (fetchSpec : String → Option SpecDoc) (configs : List ApiConfig),
       (configs.map ApiConfig.name).Nodup →
       ∀ c ∈ configs,
         ((initApis fetchSpec configs).allEndpoints.filter
            (fun e => e.apiName == c.name)).length ≤ c.maxTools) := by
  refine ⟨fun cfg spec => collectApiEndpoints_length_le cfg spec, ?_, ?_⟩
  · intro cfg spec paths hp hsome
    unfold collectApiEndpoints
    rw [hp]
    simpa using collectPaths_take cfg paths 0 hsome
  · intro fetchSpec configs hnodup c hc
    rw [initApis_allEndpoints]
    induction configs with
    | nil => cases hc
    | cons c0 cs ih =>
      simp only [List.map_cons, List.nodup_cons] at hnodup
      simp only [List.flatMap_cons, List.filter_append, List.length_append]
      rcases List.mem_cons.mp hc with rfl | hc'
      · have htail : (cs.flatMap (apiContribution fetchSpec)).filter
            (fun e => e.apiName == c.name) = [] := by
          rw [List.filter_eq_nil_iff]
          intro e he
          obtain ⟨c', hc', hec⟩ := List.mem_flatMap.mp he
          have hn : e.apiName = c'.name := mem_apiContribution_apiName fetchSpec c' e hec
          have hne : c'.name ≠ c.name := by
            intro hcontra
            exact hnodup.1 (hcontra ▸ List.mem_map_of_mem ApiConfig.name hc')
          simp [hn, hne]
        rw [htail]
        simp only [List.length_nil, Nat.add_zero]
        exact le_trans (List.length_filter_le _ _) (apiContribution_length_le fetchSpec c)
      · have hhead : (apiContribution fetchSpec c0).filter (fun e => e.apiName == c.name) = [] := by
          rw [List.filter_eq_nil_iff]
          intro e he
          have hn : e.apiName = c0.name := mem_apiContribution_apiName fetchSpec c0 e he
          have hne : c0.name ≠ c.name := by
            intro hcontra
            exact hnodup.1 (hcontra ▸ List.mem_map_of_mem ApiConfig.name hc')
          simp [hn, hne]
        rw [hhead]
        simpa using ih hnodup.2 hc'

/-! Catalog-loading lemmas shared by the load-isolation and lookup
claims. -/

theorem setAssoc_of_lookup_none {α : Type} (l : List (String × α)) (k : String) (v : α)
    (h : List.lookup k l = none) : setAssoc l k v = l ++ [(k, v)] := by
  induction l with
  | nil => rfl
  | cons hd tl ih =>
    simp only [List.lookup] at h
    cases hbe : (k == hd.1) with
    | true => rw [hbe] at h; simp at h
    | false =>
      rw [hbe] at h
      have hne : hd.1 ≠ k := Ne.symm (beq_eq_false_iff_ne.mp hbe)
      simp only [setAssoc, if_neg hne, List.cons_append, List.cons.injEq, true_and]
      exact ih h

theorem lookup_append_of_none {α : Type} (l₁ l₂ : List (String × α)) (a : String)
    (h : List.lookup a l₁ = none) : List.lookup a (l₁ ++ l₂) = List.lookup a l₂ := by
  induction l₁ with
  | nil => rfl
  | cons hd tl ih =>
    simp only [List.lookup] at h ⊢
    cases hbe : (a == hd.1) with
    | true => rw [hbe] at h; simp at h
    | false =>
      rw [hbe] at h
      simp only [List.cons_append, List.lookup, hbe]
      exact ih h

theorem initializeApi_fetchedUrls (f : String → Option SpecDoc) (st : ServerState)
    (c : ApiConfig) :
    (initializeApi f st c).fetchedUrls = st.fetchedUrls ++ [c.swaggerUrl] := by
  unfold initializeApi
  cases hf : f c.swaggerUrl <;> rfl

theorem initializeApi_apiInstances_none (f : String → Option SpecDoc) (st : ServerState)
    (c : ApiConfig) (hf : f c.swaggerUrl = none) :
    (initializeApi f st c).apiInstances = st.apiInstances := by
  unfold initializeApi
  rw [hf]

theorem initializeApi_apiInstances_some (f : String → Option SpecDoc) (st : ServerState)
    (c : ApiConfig) (spec : SpecDoc) (hf : f c.swaggerUrl = some spec) :
    (initializeApi f st c).apiInstances =
      setAssoc st.apiInstances c.name ⟨c, spec, extractSecuritySchemes spec⟩ := by
  unfold initializeApi
  rw [hf]

theorem lookup_initializeApi_ne (f : String → Option SpecDoc) (st : ServerState)
    (c : ApiConfig) (m : String) (hm : m ≠ c.name) :
    List.lookup m (initializeApi f st c).apiInstances = List.lookup m st.apiInstances := by
  cases hf : f c.swaggerUrl with
  | none => rw [initializeApi_apiInstances_none f st c hf]
  | some spec =>
    rw [initializeApi_apiInstances_some f st c spec hf]
    exact lookup_setAssoc_ne _ _ _ _ hm

theorem initApis_lookup_none_aux (f : String → Option SpecDoc) :
    ∀ (configs : List ApiConfig) (st : ServerState) (n : String),
      (∀ c ∈ configs, c.name = n → (c.enabled = false ∨ f c.swaggerUrl = none)) →
      List.lookup n
        (configs.foldl
          (fun st cfg => if cfg.enabled then initializeApi f st cfg else st) st).apiInstances =
        List.lookup n st.apiInstances := by
  intro configs
  induction configs with
  | nil => intro st n _; rfl
  | cons c cs ih =>
    intro st n h
    simp only [List.foldl_cons]
    rw [ih _ n (fun c' hc' => h c' (List.mem_cons_of_mem _ hc'))]
    by_cases hen : c.enabled
    · rw [if_pos hen]
      by_cases hname : c.name = n
      · rcases h c (List.mem_cons_self _ _) hname with hdis | hfail
        · rw [hen] at hdis; cases hdis
        · rw [initializeApi_apiInstances_none f st c hfail]
      · exact lookup_initializeApi_ne f st c n (fun hmn => hname hmn.symm)
    · rw [if_neg hen]

theorem initApis_fetchedUrls_aux (f : String → Option SpecDoc) :
    ∀ (configs : List ApiConfig) (st : ServerState),
      (configs.foldl
        (fun st cfg => if cfg.enabled then initializeApi f st cfg else st) st).fetchedUrls =
        st.fetchedUrls ++ (configs.filter (fun c => c.enabled)).map ApiConfig.swaggerUrl := by
  intro configs
  induction configs with
  | nil => intro st; simp
  | cons c cs ih =>
    intro st
    simp only [List.foldl_cons, List.filter_cons]
    by_cases hen : c.enabled
    · rw [if_pos hen, ih, initializeApi_fetchedUrls]
      simp [hen, List.append_assoc]
    · rw [if_neg hen, ih]
      simp [hen]

theorem initApis_isolation_aux (f g : String → Option SpecDoc) (n : String) :
    ∀ (configs : List ApiConfig) (st st' : ServerState),
      (∀ c ∈ configs, c.name = n ∨ f c.swaggerUrl = g c.swaggerUrl) →
      (∀ m, m ≠ n → List.lookup m st.apiInstances = List.lookup m st'.apiInstances) →
      ∀ m, m ≠ n →
        List.lookup m
          (configs.foldl
            (fun st cfg => if cfg.enabled then initializeApi f st cfg else st) st).apiInstances =
        List.lookup m
          (configs.foldl
            (fun st cfg => if cfg.enabled then initializeApi g st cfg else st) st').apiInstances := by
  intro configs
  induction configs with
  | nil => intro st st' _ hinv m hm; exact hinv m hm
  | cons c cs ih =>
    intro st st' hc hinv m hm
    simp only [List.foldl_cons]
    refine ih _ _ (fun c' hc' => hc c' (List.mem_cons_of_mem _ hc')) ?_ m hm
    intro m' hm'
    by_cases hen : c.enabled
    · rw [if_pos hen, if_pos hen]
      by_cases hname : m' = c.name
      · rcases hc c (List.mem_cons_self _ _) with hcn | hfg
        · exact absurd (hname.trans hcn) hm'
        · cases hfv : f c.swaggerUrl with
          | none =>
            rw [initializeApi_apiInstances_none f st c hfv,
              initializeApi_apiInstances_none g st' c (hfg ▸ hfv)]
            exact hinv m' hm'
          | some spec =>
            rw [initializeApi_apiInstances_some f st c spec hfv,
              initializeApi_apiInstances_some g st' c spec (hfg ▸ hfv), hname,
              lookup_setAssoc_self, lookup_setAssoc_self]
      · rw [lookup_initializeApi_ne f st c m' hname,
          lookup_initializeApi_ne g st' c m' hname]
        exact hinv m' hm'
    · rw [if_neg hen, if_neg hen]
      exact hinv m' hm'

theorem initApis_keys_aux (f : String → Option SpecDoc) :
    ∀ (configs : List ApiConfig) (st : ServerState),
      (configs.map ApiConfig.name).Nodup →
      (∀ c ∈ configs, List.lookup c.name st.apiInstances = none) →
      (configs.foldl
        (fun st cfg => if cfg.enabled then initializeApi f st cfg else st) st).apiInstances.map
          Prod.fst =
        st.apiInstances.map Prod.fst ++
          (configs.filter (fun c => c.enabled && (f c.swaggerUrl).isSome)).map ApiConfig.name := by
  intro configs
  induction configs with
  | nil => intro st _ _; simp
  | cons c cs ih =>
    intro st hnd hfresh
    simp only [List.map_cons, List.nodup_cons] at hnd
    simp only [List.foldl_cons, List.filter_cons]
    by_cases hen : c.enabled
    · rw [if_pos hen]
      cases hf : f c.swaggerUrl with
      | none =>
        rw [if_neg (by simp)]
        rw [ih _ hnd.2 ?_, initializeApi_apiInstances_none f st c hf]
        intro c' hc'
        rw [initializeApi_apiInstances_none f st c hf]
        exact hfresh c' (List.mem_cons_of_mem _ hc')
      | some spec =>
        rw [if_pos (by simp [hen])]
        have hset : (initializeApi f st c).apiInstances =
            st.apiInstances ++ [(c.name, ⟨c, spec, extractSecuritySchemes spec⟩)] := by
          rw [initializeApi_apiInstances_some f st c spec hf]
          exact setAssoc_of_lookup_none _ _ _ (hfresh c (List.mem_cons_self _ _))
        rw [ih _ hnd.2 ?_]
        · rw [hset]
          simp [List.append_assoc]
        · intro c' hc'
          rw [hset, lookup_append_of_none _ _ _ (hfresh c' (List.mem_cons_of_mem _ hc'))]
          have hne : c'.name ≠ c.name := by
            intro hcontra
            exact hnd.1 (hcontra ▸ List.mem_map_of_mem ApiConfig.name hc')
          simp only [List.lookup]
          rw [show (c'.name == c.name) = false from beq_eq_false_iff_ne.mpr hne]
    · rw [if_neg hen]
      have hcond : (c.enabled && (f c.swaggerUrl).isSome) = false := by simp [hen]
      rw [hcond]
      simp only [Bool.false_eq_true, if_false]
      exact ih _ hnd.2 (fun c' hc' => hfresh c' (List.mem_cons_of_mem _ hc'))

theorem initApis_keys (f : String → Option SpecDoc) (configs : List ApiConfig)
    (hnd : (configs.map ApiConfig.name).Nodup) :
    (initApis f configs).apiInstances.map Prod.fst =
      (configs.filter (fun c => c.enabled && (f c.swaggerUrl).isSome)).map ApiConfig.name := by
  unfold initApis
  rw [initApis_keys_aux f configs {} hnd (fun c _ => rfl)]
  rfl

/-! ## Claim C3 -/

/-- C3: loading attempts each enabled config independently — an entry
whose name only maps to disabled or failing configs never appears in
the catalog; a disabled entry triggers no specification fetch; changing
one API's fetch result leaves every other API's catalog entry
unchanged (partial-failure isolation); and with distinct names the
number of loaded instances equals the number of enabled entries whose
fetch succeeds. -/
theorem C3_partial_failure_isolation :
    (∀ (f : String → Option SpecDoc) (configs : List ApiConfig) (n : String),
       (∀ c ∈ configs, c.name = n → (c.enabled = false ∨ f c.swaggerUrl = none)) →
       List.lookup n (initApis f configs).apiInstances = none) ∧
    (∀ (f : String → Option SpecDoc) (configs : List ApiConfig) (u : String),
       (∀ c ∈ configs, c.swaggerUrl = u → c.enabled = false) →
       u ∉ (initApis f configs).fetchedUrls) ∧
    (∀ (f g : String → Option SpecDoc) (configs : List ApiConfig) (n : String),
       (∀ c ∈ configs, c.name = n ∨ f c.swaggerUrl = g c.swaggerUrl) →
       ∀ m, m ≠ n →
         List.lookup m (initApis f configs).apiInstances =
           List.lookup m (initApis g configs).apiInstances) ∧
    (∀ (f : String → Option SpecDoc) (configs : List ApiConfig),
       (configs.map ApiConfig.name).Nodup →
       (initApis f configs).apiInstances.length =
         (configs.filter (fun c => c.enabled && (f c.swaggerUrl).isSome)).length) := by
  refine ⟨?_, ?_, ?_, ?_⟩
  · intro f configs n h
    unfold initApis
    rw [initApis_lookup_none_aux f configs {} n h]
    rfl
  · intro f configs u h hmem
    unfold initApis at hmem
    rw [initApis_fetchedUrls_aux f configs {}] at hmem
    simp only [ServerState.fetchedUrls, List.nil_append] at hmem
    obtain ⟨c, hc, hcu⟩ := List.mem_map.mp hmem
    have := List.mem_filter.mp hc
    have hdis := h c this.1 hcu
    rw [hdis] at this
    cases this.2
  · intro f g configs n h m hm
    unfold initApis
    exact initApis_isolation_aux f g n configs {} {} h (fun _ _ => rfl) m hm
  · intro f configs hnd
    have hkeys := initApis_keys f configs hnd
    have hlen := congrArg List.length hkeys
    simpa using hlen

/-- C3 (witness): loading [demo, failing, disabled] against the demo
oracle loads only the demo API, fetches nothing for the disabled entry,
and leaves the demo entry unchanged when the failing API's oracle
result changes. -/
theorem C3_partial_failure_isolation_witness :
    List.lookup "bad"
      (initApis demoFetch [demoConfig, failConfig, disabledConfig]).apiInstances = none ∧
    "https://off/swagger.json" ∉
      (initApis demoFetch [demoConfig, failConfig, disabledConfig]).fetchedUrls ∧
    List.lookup "demo"
      (initApis demoFetch [demoConfig, failConfig, disabledConfig]).apiInstances =
      List.lookup "demo"
        (initApis (fun u => if u = "https://bad/swagger.json" then none else demoFetch u)
          [demoConfig, failConfig, disabledConfig]).apiInstances ∧
    (initApis demoFetch [demoConfig, failConfig, disabledConfig]).apiInstances.length = 1 := by
  refine ⟨?_, ?_, ?_, ?_⟩
  · exact C3_partial_failure_isolation.1 demoFetch [demoConfig, failConfig, disabledConfig]
      "bad" (by decide)
  · exact C3_partial_failure_isolation.2.1 demoFetch [demoConfig, failConfig, disabledConfig]
      "https://off/swagger.json" (by decide)
  · exact C3_partial_failure_isolation.2.2.1 demoFetch
      (fun u => if u = "https://bad/swagger.json" then none else demoFetch u)
      [demoConfig, failConfig, disabledConfig] "bad"
      (by intro c hc; fin_cases hc <;> simp [demoConfig, failConfig, disabledConfig, demoFetch])
      "demo" (by decide)
  · have h := C3_partial_failure_isolation.2.2.2 demoFetch
      [demoConfig, failConfig, disabledConfig] (by decide)
    exact h.trans (by decide)

/-! ## Claim C7 -/

theorem jsToLower_append (a b : String) : jsToLower (a ++ b) = jsToLower a ++ jsToLower b := by
  have hdata : (a ++ b).data = a.data ++ b.data := rfl
  unfold jsToLower
  rw [hdata, List.map_append]
  rfl

theorem jsToLower_space : jsToLower " " = " " := rfl

/-- C7: for every query, the matched set is exactly the endpoints whose
lower-cased concatenated text contains the lower-cased query, in
catalog order (a sublist of the catalog, no reranking); zero matches
produce the distinct no-matches outcome; otherwise the displayed list
is the first 10 matches, the reported total is the full match count,
and the truncation indicator appears exactly when more than 10
matched. -/
theorem C7_search_contract :
    ∀ (eps : List Endpoint) (query : String),
      (matchingEndpoints eps query = eps.filter (claimSearchMatch query)) ∧
      List.Sublist (matchingEndpoints eps query) eps ∧
      (searchEndpoints eps query = SearchOutcome.noMatches query ↔
        eps.filter (claimSearchMatch query) = []) ∧
      (∀ shown total truncated,
        searchEndpoints eps query = SearchOutcome.results shown total truncated →
        shown = (eps.filter (claimSearchMatch query)).take 10 ∧
        total = (eps.filter (claimSearchMatch query)).length ∧
        (truncated = true ↔ 10 < total)) := by
  intro eps query
  have hpt : ∀ ep, (jsIncludes (jsToLower (searchableText ep)) (jsToLower query)) =
      claimSearchMatch query ep := by
    intro ep
    unfold claimSearchMatch searchableText
    simp only [jsToLower_append, jsToLower_space]
  have hfeq : matchingEndpoints eps query = eps.filter (claimSearchMatch query) := by
    unfold matchingEndpoints
    exact List.filter_congr (fun ep _ => hpt ep)
  refine ⟨hfeq, ?_, ?_, ?_⟩
  · rw [hfeq]
    exact List.filter_sublist eps
  · simp only [searchEndpoints]
    rw [hfeq]
    by_cases him : (eps.filter (claimSearchMatch query)).isEmpty
    · rw [if_pos him]
      simp [List.isEmpty_iff.mp him]
    · rw [if_neg him]
      constructor
      · intro h; cases h
      · intro h; exact absurd (List.isEmpty_iff.mpr h) him
  · intro shown total truncated h
    simp only [searchEndpoints] at h
    rw [hfeq] at h
    by_cases him : (eps.filter (claimSearchMatch query)).isEmpty
    · rw [if_pos him] at h
      cases h
    · rw [if_neg him] at h
      cases h
      refine ⟨rfl, rfl, by simp⟩

/-- C7 (witness): on the demo catalog, query "zzz" matches nothing and
returns the explicit no-match outcome; query "item" matches exactly the
filter of the claim's predicate. -/
theorem C7_search_contract_witness :
    searchEndpoints demoState.allEndpoints "zzz" = SearchOutcome.noMatches "zzz" ∧
    matchingEndpoints demoState.allEndpoints "item" =
      demoState.allEndpoints.filter (claimSearchMatch "item") := by
  exact ⟨(C7_search_contract demoState.allEndpoints "zzz").2.2.1.mpr (by decide),
    (C7_search_contract demoState.allEndpoints "item").1⟩

/-! ## Claim C8 -/

/-- C8: a call-mode invocation with an apiName absent from the catalog
returns the structured not-found outcome as data — callEndpoint is a
total function into CallOutcome, never a thrown error — and the names it
enumerates are exactly the keys of the instance map, which after init
are exactly the names of the enabled configs whose fetch succeeded. -/
theorem C8_unknown_api_not_found :
    (∀ (st : ServerState) (apiName method path : String)
       (params : List (String × String)) (tok : Option String),
       List.lookup apiName st.apiInstances = none →
       callEndpoint st apiName method path params tok =
         CallOutcome.apiNotFound apiName (st.apiInstances.map Prod.fst)) ∧
    (∀ (f : String → Option SpecDoc) (configs : List ApiConfig),
       (configs.map ApiConfig.name).Nodup →
       (initApis f configs).apiInstances.map Prod.fst =
         (configs.filter (fun c => c.enabled && (f c.swaggerUrl).isSome)).map ApiConfig.name) := by
  constructor
  · intro st apiName method path params tok h
    unfold callEndpoint
    rw [h]
  · exact initApis_keys

/-- C8 (witness): calling unknown API "nope" on the demo catalog
returns not-found listing exactly the loaded name "demo". -/
theorem C8_unknown_api_not_found_witness :
    callEndpoint demoState "nope" "GET" "/x" [] none =
      CallOutcome.apiNotFound "nope" ["demo"] := by
  have h := C8_unknown_api_not_found.1 demoState "nope" "GET" "/x" [] none (by decide)
  exact h.trans (by decide)

/-! ## Claim C6: string lemmas for path substitution -/

theorem str_ext {a b : String} (h : a.data = b.data) : a = b := by
  cases a
  cases b
  exact congrArg String.mk h

theorem placeholder_data (k : String) :
    (placeholder k).data = lbrace :: (k.data ++ [rbrace]) := by
  have h : (placeholder k).data =
      ("\x7b" : String).data ++ k.data ++ ("\x7d" : String).data := rfl
  rw [h, show ("\x7b" : String).data = [lbrace] from by decide,
    show ("\x7d" : String).data = [rbrace] from by decide]
  simp

theorem braceFree_append {a b : List Char} (ha : braceFree a) (hb : braceFree b) :
    braceFree (a ++ b) := by
  intro c hc
  rcases List.mem_append.mp hc with h | h
  · exact ha c h
  · exact hb c h

theorem hexDigitAt_ok (n : Nat) : hexDigitAt n ≠ lbrace ∧ hexDigitAt n ≠ rbrace := by
  unfold hexDigitAt
  have hall : ∀ x ∈ hexDigits, x ≠ lbrace ∧ x ≠ rbrace := by decide
  have hmem : hexDigits.getD n '0' ∈ hexDigits ∨ hexDigits.getD n '0' = '0' := by
    unfold List.getD
    cases h : hexDigits.get? n with
    | none => simp
    | some c => simp [List.get?_mem h]
  rcases hmem with h | h
  · exact hall _ h
  · rw [h]
    decide

theorem percentEncodeChar_ok (c : Char) : ∀ x ∈ percentEncodeChar c, x ≠ lbrace ∧ x ≠ rbrace := by
  intro x hx
  unfold percentEncodeChar at hx
  obtain ⟨b, _, hxb⟩ := List.mem_flatMap.mp hx
  simp only [List.mem_cons, List.mem_singleton, List.not_mem_nil] at hxb
  rcases hxb with rfl | rfl | rfl | h
  · decide
  · exact hexDigitAt_ok _
  · exact hexDigitAt_ok _
  · cases h

theorem encode_braceFree (v : String) : braceFree (encodeURIComponent v).data := by
  intro x hx
  have hx' : x ∈ v.data.flatMap
      (fun c => if uriUnreserved c then [c] else percentEncodeChar c) := hx
  obtain ⟨c, _, hxc⟩ := List.mem_flatMap.mp hx'
  by_cases hu : uriUnreserved c
  · rw [if_pos hu] at hxc
    simp only [List.mem_singleton] at hxc
    subst hxc
    constructor
    · intro h
      subst h
      revert hu
      decide
    · intro h
      subst h
      revert hu
      decide
  · rw [if_neg hu] at hxc
    exact percentEncodeChar_ok c x hxc

theorem splitFirst_nil (pat : List Char) (h : pat ≠ []) : splitFirst [] pat = none := by
  unfold splitFirst
  rw [if_neg h]

theorem splitFirst_cons (c : Char) (cs pat : List Char) :
    splitFirst (c :: cs) pat =
      if pat.isPrefixOf (c :: cs) = true then some ([], (c :: cs).drop pat.length)
      else (splitFirst cs pat).map (fun pr => (c :: pr.1, pr.2)) := rfl

theorem splitFirst_cons_pos (c : Char) (cs pat : List Char)
    (h : pat.isPrefixOf (c :: cs) = true) :
    splitFirst (c :: cs) pat = some ([], (c :: cs).drop pat.length) := by
  rw [splitFirst_cons, if_pos h]

theorem splitFirst_cons_neg (c : Char) (cs pat : List Char)
    (h : ¬ pat.isPrefixOf (c :: cs) = true) :
    splitFirst (c :: cs) pat = (splitFirst cs pat).map (fun pr => (c :: pr.1, pr.2)) := by
  rw [splitFirst_cons, if_neg h]

theorem splitFirst_chunk (rest : List Char) :
    ∀ (C : List Char), lbrace ∉ C → ∀ S : List Char,
      splitFirst (C ++ S) (lbrace :: rest) =
        (splitFirst S (lbrace :: rest)).map (fun pr => (C ++ pr.1, pr.2)) := by
  intro C
  induction C with
  | nil =>
    intro _ S
    simp only [List.nil_append]
    cases h : splitFirst S (lbrace :: rest) <;> simp
  | cons c C' ih =>
    intro hC S
    have hc : c ≠ lbrace := by
      intro hEq
      exact hC (hEq ▸ List.mem_cons_self c C')
    have hnp : ¬ ((lbrace :: rest).isPrefixOf (c :: (C' ++ S)) = true) := by
      simp only [List.isPrefixOf, Bool.and_eq_true, beq_iff_eq]
      intro hcontra
      exact hc hcontra.1.symm
    rw [List.cons_append, splitFirst_cons_neg _ _ _ hnp,
      ih (fun h => hC (List.mem_cons_of_mem _ h)) S]
    cases h : splitFirst S (lbrace :: rest) <;> simp

theorem isPfx_hole (k : List Char) : ∀ (p S : List Char), braceFree k → braceFree p →
    (((k ++ [rbrace]).isPrefixOf (p ++ rbrace :: S)) = true ↔ k = p) := by
  induction k with
  | nil =>
    intro p S _ hp
    cases p with
    | nil => simp [List.isPrefixOf]
    | cons q p' =>
      have hq : q ≠ rbrace := (hp q (List.mem_cons_self _ _)).2
      simp only [List.nil_append, List.cons_append, List.isPrefixOf, Bool.and_eq_true,
        beq_iff_eq]
      constructor
      · intro h
        exact absurd h.1.symm hq
      · intro h
        cases h
  | cons a k' ih =>
    intro p S hk hp
    have hk' : braceFree k' := fun c hc => hk c (List.mem_cons_of_mem _ hc)
    cases p with
    | nil =>
      have ha : a ≠ rbrace := (hk a (List.mem_cons_self _ _)).2
      simp only [List.cons_append, List.nil_append, List.isPrefixOf, Bool.and_eq_true,
        beq_iff_eq]
      constructor
      · intro h
        exact absurd h.1 ha
      · intro h
        cases h
    | cons q p' =>
      have hp' : braceFree p' := fun c hc => hp c (List.mem_cons_of_mem _ hc)
      simp only [List.cons_append, List.isPrefixOf, Bool.and_eq_true, beq_iff_eq,
        List.append_eq]
      rw [ih p' S hk' hp']
      constructor
      · intro h
        rw [h.1, h.2]
      · intro h
        injection h with h1 h2
        exact ⟨h1, h2⟩

theorem renderMix_nil : renderMix [] = [] := rfl

theorem renderMix_cons (t : MTok) (toks : List MTok) :
    renderMix (t :: toks) = renderMTok t ++ renderMix toks := by
  simp [renderMix]

theorem renderMix_append (l₁ l₂ : List MTok) :
    renderMix (l₁ ++ l₂) = renderMix l₁ ++ renderMix l₂ := by
  simp [renderMix]

theorem splitFirst_mix_none (k : List Char) (hk : braceFree k) :
    ∀ toks, (∀ t ∈ toks, tokOk t) → k ∉ holesOf toks →
      splitFirst (renderMix toks) (lbrace :: (k ++ [rbrace])) = none := by
  intro toks
  induction toks with
  | nil =>
    intro _ _
    rw [renderMix_nil]
    exact splitFirst_nil _ (by simp)
  | cons t rest ih =>
    intro hwf hnh
    have hih := ih (fun t ht => hwf t (List.mem_cons_of_mem _ ht))
    cases t with
    | chunk s =>
      have hs : braceFree s := hwf _ (List.mem_cons_self _ _)
      have hsl : lbrace ∉ s := fun h => (hs _ h).1 rfl
      rw [renderMix_cons]
      show splitFirst (s ++ renderMix rest) _ = none
      rw [splitFirst_chunk _ s hsl (renderMix rest), hih hnh]
      rfl
    | hole p =>
      have hp : braceFree p := hwf _ (List.mem_cons_self _ _)
      have hkp : k ≠ p := by
        intro h
        exact hnh (h ▸ List.mem_cons_self _ _)
      have hnh' : k ∉ holesOf rest := fun h => hnh (List.mem_cons_of_mem _ h)
      have hform : renderMix (MTok.hole p :: rest) =
          lbrace :: (p ++ rbrace :: renderMix rest) := by
        rw [renderMix_cons]
        show (lbrace :: (p ++ [rbrace])) ++ renderMix rest = _
        simp
      rw [hform]
      have hnp : ¬ ((lbrace :: (k ++ [rbrace])).isPrefixOf
          (lbrace :: (p ++ rbrace :: renderMix rest)) = true) := by
        simp only [List.isPrefixOf, Bool.and_eq_true, beq_iff_eq]
        intro hcontra
        exact hkp ((isPfx_hole k p (renderMix rest) hk hp).mp hcontra.2)
      rw [splitFirst_cons_neg _ _ _ hnp]
      have hC : lbrace ∉ p ++ [rbrace] := by
        intro h
        rcases List.mem_append.mp h with h | h
        · exact (hp _ h).1 rfl
        · simp only [List.mem_singleton] at h
          revert h
          decide
      rw [show p ++ rbrace :: renderMix rest = (p ++ [rbrace]) ++ renderMix rest from by simp,
        splitFirst_chunk _ (p ++ [rbrace]) hC (renderMix rest), hih hnh']
      rfl

theorem splitFirst_mix_hole (k : List Char) (hk : braceFree k) :
    ∀ (pre : List MTok) (post : List MTok), (∀ t ∈ pre, tokOk t) → k ∉ holesOf pre →
      splitFirst (renderMix (pre ++ MTok.hole k :: post)) (lbrace :: (k ++ [rbrace])) =
        some (renderMix pre, renderMix post) := by
  intro pre
  induction pre with
  | nil =>
    intro post _ _
    have hform : renderMix ([] ++ MTok.hole k :: post) =
        lbrace :: (k ++ rbrace :: renderMix post) := by
      rw [List.nil_append, renderMix_cons]
      show (lbrace :: (k ++ [rbrace])) ++ renderMix post = _
      simp
    have hpfx : (lbrace :: (k ++ [rbrace])).isPrefixOf
        (lbrace :: (k ++ rbrace :: renderMix post)) = true := by
      have h2 : (k ++ [rbrace]).isPrefixOf (k ++ rbrace :: renderMix post) = true :=
        (isPfx_hole k k (renderMix post) hk hk).mpr rfl
      simp [List.isPrefixOf, h2]
    rw [hform, splitFirst_cons_pos _ _ _ hpfx]
    rw [show lbrace :: (k ++ rbrace :: renderMix post) =
        (lbrace :: (k ++ [rbrace])) ++ renderMix post from by simp]
    rw [show (lbrace :: (k ++ [rbrace])).length = (lbrace :: (k ++ [rbrace])).length from rfl]
    rw [List.drop_left]
    rfl
  | cons t pre' ih =>
    intro post hwf hnh
    have hih := ih post (fun t ht => hwf t (List.mem_cons_of_mem _ ht))
    cases t with
    | chunk s =>
      have hs : braceFree s := hwf _ (List.mem_cons_self _ _)
      have hsl : lbrace ∉ s := fun h => (hs _ h).1 rfl
      rw [List.cons_append, renderMix_cons]
      show splitFirst (s ++ renderMix (pre' ++ MTok.hole k :: post)) _ = _
      rw [splitFirst_chunk _ s hsl _, hih hnh]
      rw [renderMix_cons]
      rfl
    | hole p =>
      have hp : braceFree p := hwf _ (List.mem_cons_self _ _)
      have hkp : k ≠ p := by
        intro h
        exact hnh (h ▸ List.mem_cons_self _ _)
      have hnh' : k ∉ holesOf pre' := fun h => hnh (List.mem_cons_of_mem _ h)
      rw [List.cons_append]
      have hform : renderMix (MTok.hole p :: (pre' ++ MTok.hole k :: post)) =
          lbrace :: (p ++ rbrace :: renderMix (pre' ++ MTok.hole k :: post)) := by
        rw [renderMix_cons]
        show (lbrace :: (p ++ [rbrace])) ++ _ = _
        simp
      rw [hform]
      have hnp : ¬ ((lbrace :: (k ++ [rbrace])).isPrefixOf
          (lbrace :: (p ++ rbrace :: renderMix (pre' ++ MTok.hole k :: post))) = true) := by
        simp only [List.isPrefixOf, Bool.and_eq_true, beq_iff_eq]
        intro hcontra
        exact hkp ((isPfx_hole k p _ hk hp).mp hcontra.2)
      rw [splitFirst_cons_neg _ _ _ hnp]
      have hC : lbrace ∉ p ++ [rbrace] := by
        intro h
        rcases List.mem_append.mp h with h | h
        · exact (hp _ h).1 rfl
        · simp only [List.mem_singleton] at h
          revert h
          decide
      rw [show p ++ rbrace :: renderMix (pre' ++ MTok.hole k :: post) =
          (p ++ [rbrace]) ++ renderMix (pre' ++ MTok.hole k :: post) from by simp,
        splitFirst_chunk _ (p ++ [rbrace]) hC _, hih hnh']
      rw [renderMix_cons]
      show some _ = _
      simp [renderMTok]

theorem lookup_eq_none_keys {α : Type} (l : List (String × α)) (k : String)
    (h : k ∉ l.map Prod.fst) : List.lookup k l = none := by
  induction l with
  | nil => rfl
  | cons hd tl ih =>
    simp only [List.map_cons, List.mem_cons] at h
    push_neg at h
    simp only [List.lookup]
    rw [show (k == hd.1) = false from beq_eq_false_iff_ne.mpr h.1]
    exact ih h.2

theorem lookup_append {α : Type} (l₁ l₂ : List (String × α)) (a : String) :
    List.lookup a (l₁ ++ l₂) = (List.lookup a l₁).or (List.lookup a l₂) := by
  induction l₁ with
  | nil => simp
  | cons hd tl ih =>
    simp only [List.cons_append, List.lookup]
    cases hbe : (a == hd.1) with
    | true => rfl
    | false => exact ih

theorem exists_first_key {β : Type} (l : List (String × β)) (k : String)
    (h : k ∈ l.map Prod.fst) :
    ∃ l₁ v l₂, l = l₁ ++ (k, v) :: l₂ ∧ k ∉ l₁.map Prod.fst := by
  induction l with
  | nil => cases h
  | cons hd tl ih =>
    by_cases hk : hd.1 = k
    · exact ⟨[], hd.2, tl, by simp [← hk], by simp⟩
    · simp only [List.map_cons, List.mem_cons] at h
      rcases h with h | h
      · exact absurd h.symm hk
      · obtain ⟨l₁, v, l₂, hdec, hnm⟩ := ih h
        exact ⟨hd :: l₁, v, l₂, by simp [hdec], by
          simp only [List.map_cons, List.mem_cons]
          push_neg
          exact ⟨fun hc => hk hc.symm, hnm⟩⟩

theorem flatMap_congr {α β : Type} (l : List α) (f g : α → List β)
    (h : ∀ a ∈ l, f a = g a) : l.flatMap f = l.flatMap g := by
  induction l with
  | nil => rfl
  | cons hd tl ih =>
    simp only [List.flatMap_cons]
    rw [h hd (List.mem_cons_self _ _), ih (fun a ha => h a (List.mem_cons_of_mem _ ha))]

theorem holesOf_append (l₁ l₂ : List MTok) : holesOf (l₁ ++ l₂) = holesOf l₁ ++ holesOf l₂ := by
  induction l₁ with
  | nil => rfl
  | cons t rest ih => cases t <;> simp [holesOf, ih]

theorem holesOf_segsToks (input segs : List (String × String)) :
    ∀ q ∈ holesOf (segsToks input segs),
      ∃ s ∈ segs, q = s.1.data ∧ List.lookup s.1 input = none := by
  induction segs with
  | nil => intro q hq; cases hq
  | cons s rest ih =>
    intro q hq
    simp only [segsToks, List.flatMap_cons] at hq
    rw [holesOf_append] at hq
    rcases List.mem_append.mp hq with hq | hq
    · unfold segTok at hq
      cases hlk : List.lookup s.1 input with
      | some v => rw [hlk] at hq; cases hq
      | none =>
        rw [hlk] at hq
        simp only [holesOf, List.mem_cons, List.not_mem_nil, or_false] at hq
        exact ⟨s, List.mem_cons_self _ _, hq, hlk⟩
    · obtain ⟨s', hs', hrest⟩ := ih q hq
      exact ⟨s', List.mem_cons_of_mem _ hs', hrest⟩

theorem tokOk_segsToks (input segs : List (String × String))
    (hsegs : ∀ s ∈ segs, braceFree s.1.data ∧ braceFree s.2.data) :
    ∀ t ∈ segsToks input segs, tokOk t := by
  intro t ht
  obtain ⟨s, hs, hts⟩ := List.mem_flatMap.mp ht
  unfold segTok at hts
  cases hlk : List.lookup s.1 input with
  | some v =>
    rw [hlk] at hts
    simp only [List.mem_cons, List.not_mem_nil, or_false] at hts
    rcases hts with rfl | rfl
    · exact encode_braceFree v
    · exact (hsegs s hs).2
  | none =>
    rw [hlk] at hts
    simp only [List.mem_cons, List.not_mem_nil, or_false] at hts
    rcases hts with rfl | rfl
    · exact (hsegs s hs).1
    · exact (hsegs s hs).2

theorem segTok_ext (I : List (String × String)) (k v : String) (s : String × String)
    (hs : s.1 ≠ k) : segTok (I ++ [(k, v)]) s = segTok I s := by
  unfold segTok
  rw [lookup_append,
    show List.lookup s.1 [(k, v)] = none from by
      simp only [List.lookup]
      rw [show (s.1 == k) = false from beq_eq_false_iff_ne.mpr hs],
    Option.or_none]

theorem segsToks_ext (I : List (String × String)) (k v : String)
    (segs : List (String × String)) (h : ∀ s ∈ segs, s.1 ≠ k) :
    segsToks (I ++ [(k, v)]) segs = segsToks I segs :=
  flatMap_congr segs _ _ (fun s hs => segTok_ext I k v s (h s hs))

theorem renderMix_segsToks (input segs : List (String × String)) :
    renderMix (segsToks input segs) = (renderSubstituted input segs).data := by
  induction segs with
  | nil => rfl
  | cons s rest ih =>
    have hcons : segsToks input (s :: rest) = segTok input s ++ segsToks input rest := by
      simp [segsToks]
    cases hlk : List.lookup s.1 input with
    | some v =>
      have hseg : segTok input s =
          [MTok.chunk (encodeURIComponent v).data, MTok.chunk s.2.data] := by
        unfold segTok
        rw [hlk]
      have hsub : renderSubstituted input (s :: rest) =
          encodeURIComponent v ++ s.2 ++ renderSubstituted input rest := by
        show (match List.lookup s.1 input with
          | some v => encodeURIComponent v
          | none => placeholder s.1) ++ s.2 ++ renderSubstituted input rest = _
        rw [hlk]
      rw [hcons, hsub, renderMix_append, hseg, ih]
      have hdata : (encodeURIComponent v ++ s.2 ++ renderSubstituted input rest).data =
          ((encodeURIComponent v).data ++ s.2.data) ++ (renderSubstituted input rest).data := rfl
      rw [hdata]
      simp [renderMix, renderMTok]
    | none =>
      have hseg : segTok input s = [MTok.hole s.1.data, MTok.chunk s.2.data] := by
        unfold segTok
        rw [hlk]
      have hsub : renderSubstituted input (s :: rest) =
          placeholder s.1 ++ s.2 ++ renderSubstituted input rest := by
        show (match List.lookup s.1 input with
          | some v => encodeURIComponent v
          | none => placeholder s.1) ++ s.2 ++ renderSubstituted input rest = _
        rw [hlk]
      rw [hcons, hsub, renderMix_append, hseg, ih]
      have hdata : (placeholder s.1 ++ s.2 ++ renderSubstituted input rest).data =
          ((placeholder s.1).data ++ s.2.data) ++ (renderSubstituted input rest).data := rfl
      rw [hdata, placeholder_data]
      simp [renderMix, renderMTok]

theorem renderSubstituted_nil_input (segs : List (String × String)) :
    renderSubstituted [] segs = renderTemplate segs := by
  induction segs with
  | nil => rfl
  | cons s rest ih => simp [renderSubstituted, renderTemplate, List.lookup, ih]

theorem substPathStep_mix (B : List Char) (segs I : List (String × String)) (k v : String)
    (hB : braceFree B)
    (hsegs : ∀ s ∈ segs, braceFree s.1.data ∧ braceFree s.2.data)
    (hnd : (segs.map Prod.fst).Nodup)
    (hk : braceFree k.data)
    (hI : List.lookup k I = none) :
    substPathStep (String.mk (renderMix (MTok.chunk B :: segsToks I segs))) (k, v) =
      String.mk (renderMix (MTok.chunk B :: segsToks (I ++ [(k, v)]) segs)) := by
  have hwf : ∀ t ∈ MTok.chunk B :: segsToks I segs, tokOk t := by
    intro t ht
    rcases List.mem_cons.mp ht with rfl | ht
    · exact hB
    · exact tokOk_segsToks I segs hsegs t ht
  by_cases hmem : k ∈ segs.map Prod.fst
  · obtain ⟨s₁, t, s₂, hdecomp, hfirst⟩ := exists_first_key segs k hmem
    subst hdecomp
    have hk2 : k ∉ s₂.map Prod.fst := by
      have h1 : (s₁.map Prod.fst ++ k :: s₂.map Prod.fst).Nodup := by simpa using hnd
      exact (List.nodup_cons.mp (List.nodup_append.mp h1).2.1).1
    have hs1ne : ∀ s ∈ s₁, s.1 ≠ k := by
      intro s hs hc
      exact hfirst (hc ▸ List.mem_map_of_mem Prod.fst hs)
    have hs2ne : ∀ s ∈ s₂, s.1 ≠ k := by
      intro s hs hc
      exact hk2 (hc ▸ List.mem_map_of_mem Prod.fst hs)
    have hdec : segsToks I (s₁ ++ (k, t) :: s₂) =
        segsToks I s₁ ++ (MTok.hole k.data :: (MTok.chunk t.data :: segsToks I s₂)) := by
      simp only [segsToks, List.flatMap_append, List.flatMap_cons]
      rw [show segTok I (k, t) = [MTok.hole k.data, MTok.chunk t.data] from by
        unfold segTok
        rw [show List.lookup (k, t).1 I = none from hI]]
      rfl
    have hsegs1 : ∀ s ∈ s₁, braceFree s.1.data ∧ braceFree s.2.data :=
      fun s hs => hsegs s (List.mem_append.mpr (Or.inl hs))
    have hwfpre : ∀ tk ∈ MTok.chunk B :: segsToks I s₁, tokOk tk := by
      intro tk htk
      rcases List.mem_cons.mp htk with rfl | htk
      · exact hB
      · exact tokOk_segsToks I s₁ hsegs1 tk htk
    have hnhpre : k.data ∉ holesOf (MTok.chunk B :: segsToks I s₁) := by
      show k.data ∉ holesOf (segsToks I s₁)
      intro hq
      obtain ⟨s, hs, hqd, _⟩ := holesOf_segsToks I s₁ k.data hq
      exact hs1ne s hs (str_ext hqd.symm)
    have hsplit := splitFirst_mix_hole k.data hk (MTok.chunk B :: segsToks I s₁)
      (MTok.chunk t.data :: segsToks I s₂) hwfpre hnhpre
    have hrform : renderMix (MTok.chunk B :: segsToks I (s₁ ++ (k, t) :: s₂)) =
        renderMix ((MTok.chunk B :: segsToks I s₁) ++
          MTok.hole k.data :: (MTok.chunk t.data :: segsToks I s₂)) := by
      rw [hdec]
      rfl
    unfold substPathStep
    rw [if_pos ?hinc]
    case hinc =>
      show (splitFirst (String.mk _).data (placeholder k).data).isSome = true
      show (splitFirst (renderMix _) (placeholder k).data).isSome = true
      rw [placeholder_data, hrform, hsplit]
      rfl
    show jsReplaceFirst (String.mk _) _ _ = _
    unfold jsReplaceFirst
    show (match splitFirst (renderMix _) (placeholder k).data with
      | some pr => String.mk (pr.1 ++ (encodeURIComponent v).data ++ pr.2)
      | none => _) = _
    rw [placeholder_data, hrform, hsplit]
    apply congrArg String.mk
    rw [show segsToks (I ++ [(k, v)]) (s₁ ++ (k, t) :: s₂) =
        segsToks (I ++ [(k, v)]) s₁ ++
          (MTok.chunk (encodeURIComponent v).data :: (MTok.chunk t.data ::
            segsToks (I ++ [(k, v)]) s₂)) from by
      simp only [segsToks, List.flatMap_append, List.flatMap_cons]
      rw [show segTok (I ++ [(k, v)]) (k, t) =
          [MTok.chunk (encodeURIComponent v).data, MTok.chunk t.data] from by
        unfold segTok
        rw [show List.lookup (k, t).1 (I ++ [(k, v)]) = some v from by
          rw [lookup_append, show List.lookup (k, t).1 I = none from hI]
          simp [List.lookup]]]
      rfl]
    rw [segsToks_ext I k v s₁ hs1ne, segsToks_ext I k v s₂ hs2ne]
    simp [renderMix, renderMTok, List.flatMap_append, List.flatMap_cons, List.append_assoc]
  · have hallne : ∀ s ∈ segs, s.1 ≠ k := by
      intro s hs hc
      exact hmem (hc ▸ List.mem_map_of_mem Prod.fst hs)
    have hnh : k.data ∉ holesOf (MTok.chunk B :: segsToks I segs) := by
      show k.data ∉ holesOf (segsToks I segs)
      intro hq
      obtain ⟨s, hs, hqd, _⟩ := holesOf_segsToks I segs k.data hq
      exact hallne s hs (str_ext hqd.symm)
    have hnone := splitFirst_mix_none k.data hk _ hwf hnh
    unfold substPathStep
    rw [if_neg ?hninc]
    case hninc =>
      show ¬ (splitFirst (String.mk _).data (placeholder k).data).isSome = true
      show ¬ (splitFirst (renderMix _) (placeholder k).data).isSome = true
      rw [placeholder_data, hnone]
      simp
    rw [segsToks_ext I k v segs hallne]

theorem foldl_subst_mix (B : List Char) (segs : List (String × String))
    (hB : braceFree B)
    (hsegs : ∀ s ∈ segs, braceFree s.1.data ∧ braceFree s.2.data)
    (hnd : (segs.map Prod.fst).Nodup) :
    ∀ (input I : List (String × String)),
      ((I ++ input).map Prod.fst).Nodup →
      (∀ kv ∈ input, braceFree kv.1.data) →
      List.foldl substPathStep
          (String.mk (renderMix (MTok.chunk B :: segsToks I segs))) input =
        String.mk (renderMix (MTok.chunk B :: segsToks (I ++ input) segs)) := by
  intro input
  induction input with
  | nil => intro I _ _; simp
  | cons kv rest ih =>
    intro I hndI hbf
    obtain ⟨k, v⟩ := kv
    simp only [List.foldl_cons]
    have hknotI : k ∉ I.map Prod.fst := by
      intro hkI
      have h1 : (I.map Prod.fst ++ k :: rest.map Prod.fst).Nodup := by simpa using hndI
      exact (List.nodup_append.mp h1).2.2 hkI (List.mem_cons_self _ _)
    have hI : List.lookup k I = none := lookup_eq_none_keys I k hknotI
    rw [substPathStep_mix B segs I k v hB hsegs hnd (hbf (k, v) (List.mem_cons_self _ _)) hI]
    have hnd' : (((I ++ [(k, v)]) ++ rest).map Prod.fst).Nodup := by
      simpa [List.append_assoc] using hndI
    have := ih (I ++ [(k, v)]) hnd' (fun kv h => hbf kv (List.mem_cons_of_mem _ h))
    simpa [List.append_assoc] using this

/-- C6: during request execution, for every input field whose name
appears as a placeholder in the endpoint path, the URL-encoded value is
substituted for the placeholder in the outgoing URL; any placeholder
with no matching input field remains as literal text in the final URL;
extra input fields leave the URL unchanged; and the construction is a
total function — no error can occur before the call is issued.
The path is presented as brace-free literal stretches around distinct
brace-free placeholder names, and input fields are distinct and
brace-free — the shape every path template and input record has. -/
theorem C6_path_substitution :
    ∀ (baseUrl lead : String) (segs input : List (String × String)),
      braceFree baseUrl.data → braceFree lead.data →
      (∀ s ∈ segs, braceFree s.1.data ∧ braceFree s.2.data) →
      (segs.map Prod.fst).Nodup →
      (input.map Prod.fst).Nodup →
      (∀ kv ∈ input, braceFree kv.1.data) →
      buildUrl baseUrl (lead ++ renderTemplate segs) input =
        baseUrl ++ lead ++ renderSubstituted input segs := by
  intro baseUrl lead segs input hb hl hsegs hnd hndi hbf
  unfold buildUrl
  have hinit : baseUrl ++ (lead ++ renderTemplate segs) =
      String.mk (renderMix (MTok.chunk (baseUrl.data ++ lead.data) :: segsToks [] segs)) := by
    apply str_ext
    show baseUrl.data ++ (lead.data ++ (renderTemplate segs).data) = _
    rw [renderMix_cons, renderMix_segsToks, renderSubstituted_nil_input]
    simp [renderMTok]
  rw [hinit, foldl_subst_mix (baseUrl.data ++ lead.data) segs (braceFree_append hb hl)
    hsegs hnd input [] (by simpa using hndi) hbf]
  apply str_ext
  show renderMix (MTok.chunk (baseUrl.data ++ lead.data) :: segsToks ([] ++ input) segs) = _
  rw [List.nil_append, renderMix_cons, renderMix_segsToks]
  show (baseUrl.data ++ lead.data) ++ (renderSubstituted input segs).data =
    (baseUrl ++ lead ++ renderSubstituted input segs).data
  rfl

/-- C6 (witness): on the demo-style path /items/(id)/(rest), input
fields id = "42" (matched) and other = "z" (unmatched by any
placeholder) produce https://x/api/items/42/(rest): the id placeholder
is substituted with the encoded value and the rest placeholder remains
literal text. -/
theorem C6_path_substitution_witness :
    buildUrl "https://x/api" ("/items/" ++ renderTemplate [("id", "/"), ("rest", "")])
        [("id", "42"), ("other", "z")] =
      "https://x/api" ++ "/items/" ++
        renderSubstituted [("id", "42"), ("other", "z")] [("id", "/"), ("rest", "")] ∧
    buildUrl "https://x/api" ("/items/" ++ renderTemplate [("id", "/"), ("rest", "")])
        [("id", "42"), ("other", "z")] = "https://x/api/items/42/\x7brest\x7d" := by
  have h := C6_path_substitution "https://x/api" "/items/" [("id", "/"), ("rest", "")]
    [("id", "42"), ("other", "z")] (by decide) (by decide) (by decide) (by decide)
    (by decide) (by decide)
  exact ⟨h, by decide⟩

/-! ## Claim C5 -/

/-- C5 (counterexample): the distinct operationIds "getFoo" and
"getFooUsingGET" (same API name "demo") derive the same tool identifier
"demo_get_foo", yet neither stripped name is found in the curated
override table — the collision arises from the mechanical verb-suffix
stripping alone, not from the override table, refuting the claimed
uniqueness. -/
theorem C5_mechanical_collision :
    toolIdentifier "demo" "getFoo" = "demo_get_foo" ∧
    toolIdentifier "demo" "getFooUsingGET" = "demo_get_foo" ∧
    ("getFoo" : String) ≠ "getFooUsingGET" ∧
    List.lookup (String.mk (stripControllerSuffix (stripUsingSuffix ("getFoo" : String).data)))
      operationIdMappings = none ∧
    List.lookup
      (String.mk (stripControllerSuffix (stripUsingSuffix ("getFooUsingGET" : String).data)))
      operationIdMappings = none := by
  exact ⟨by decide, by decide, by decide, by decide, by decide⟩

/-- C5 (amended): the normalization is a pure function — calling it
twice on the same input always yields the same output — but identifiers
for distinct (apiName, operationId) pairs are not unique in general:
besides override-table collisions, the mechanical suffix stripping
itself collides distinct operationIds (such as "getFoo" and
"getFooUsingGET", both normalizing to "get_foo" without consulting the
override table). -/
theorem C5_normalize_deterministic :
    (∀ s : String, simplifyOperationId s = simplifyOperationId s) ∧
    simplifyOperationId "getFoo" = "get_foo" ∧
    simplifyOperationId "getFooUsingGET" = "get_foo" ∧
    toolIdentifier "demo" "getFoo" = toolIdentifier "demo" "getFooUsingGET" ∧
    List.lookup (String.mk (stripControllerSuffix (stripUsingSuffix ("getFoo" : String).data)))
      operationIdMappings = none ∧
    List.lookup
      (String.mk (stripControllerSuffix (stripUsingSuffix ("getFooUsingGET" : String).data)))
      operationIdMappings = none := by
  exact ⟨fun s => rfl, by decide, by decide, by decide, by decide, by decide⟩

/-- C2 (witness): a document declaring three operations against a cap
of 2 indexes exactly the first two declared operations, and the init
flat list respects the cap. -/
theorem C2_maxTools_cap_witness :
    (collectApiEndpoints capConfig capSpec).length ≤ capConfig.maxTools ∧
    collectApiEndpoints capConfig capSpec =
      (declaredEndpoints capConfig
        [ ("/a", some [("get", some { operationId := some "aGet" }),
                       ("post", some { operationId := some "aPost" })]),
          ("/b", some [("get", some { operationId := some "bGet" })]) ]).take
        capConfig.maxTools ∧
    ((initApis capFetch [capConfig]).allEndpoints.filter
       (fun e => e.apiName == capConfig.name)).length ≤ capConfig.maxTools := by
  refine ⟨C2_maxTools_cap.1 capConfig capSpec,
    C2_maxTools_cap.2.1 capConfig capSpec _ rfl (by decide),
    C2_maxTools_cap.2.2 capFetch [capConfig] (by decide) capConfig (by decide)⟩

end SwaggerMcp
